import Mathlib

/-!
Shallow embedding of the prompt-to-image generation pipeline of the
Genimeg application (`App.handleGenerate`, `services/gemini.ts`,
`services/stability.ts`, `types.ts`).

Strings are modelled as `List Char`.  JavaScript `String.prototype.trim`,
the `\s` character class, the line-terminator set excluded by `.` in a
regular expression, and JS string truthiness are modelled explicitly.
-/

abbrev Str := List Char

/-- The JavaScript `\s` / `String.prototype.trim` whitespace set
(WhiteSpace plus LineTerminator code points), by code point. -/
def isJsWs (c : Char) : Bool :=
  c.toNat = 32 || c.toNat = 9 || c.toNat = 10 || c.toNat = 11 || c.toNat = 12 ||
  c.toNat = 13 || c.toNat = 160 || c.toNat = 0x1680 ||
  (0x2000 ≤ c.toNat && c.toNat ≤ 0x200a) || c.toNat = 0x2028 || c.toNat = 0x2029 ||
  c.toNat = 0x202f || c.toNat = 0x205f || c.toNat = 0x3000 || c.toNat = 0xfeff

/-- ASCII decimal digit (the JS `\d` class). -/
def isDigitChar (c : Char) : Bool := 48 ≤ c.toNat && c.toNat ≤ 57

/-- Newline, the character `String.prototype.split('\n')` splits on. -/
def isNL (c : Char) : Bool := c.toNat = 10

/-- Line terminators other than `'\n'` that a JS regex `.` refuses to match:
carriage return, U+2028, U+2029. -/
def isHardTerm (c : Char) : Bool :=
  c.toNat = 13 || c.toNat = 0x2028 || c.toNat = 0x2029

/-- The full set of characters a JS regex `.` does not match. -/
def isLineTerm (c : Char) : Bool := isNL c || isHardTerm c

/-- Left trim: drop leading JS whitespace. -/
def trimL (l : Str) : Str := l.dropWhile isJsWs

/-- Right trim: drop trailing JS whitespace. -/
def trimR (l : Str) : Str := (trimL l.reverse).reverse

/-- JavaScript `String.prototype.trim`. -/
def jsTrim (l : Str) : Str := trimR (trimL l)

/-- JavaScript `str.split('\n')`: always returns at least one piece. -/
def splitLines : Str → List Str
  | [] => [[]]
  | c :: rest =>
    if isNL c then [] :: splitLines rest
    else
      match splitLines rest with
      | [] => [[c]]
      | h :: t => (c :: h) :: t

/-- Suffix of a newline join: `'\n'`-prefixed lines, concatenated. -/
def tailJoin : List Str → Str
  | [] => []
  | l :: ls => '\n' :: l ++ tailJoin ls

/-- Join lines with `'\n'` (inverse of `splitLines`). -/
def joinLines : List Str → Str
  | [] => []
  | l :: ls => l ++ tailJoin ls

/-- A string free of newline characters. -/
def noNL (l : Str) : Prop := ∀ c ∈ l, isNL c = false

/-- A string free of hard line terminators (CR, U+2028, U+2029). -/
def noHard (l : Str) : Prop := ∀ c ∈ l, isHardTerm c = false

/-- Decimal value of a digit string, as computed by `parseInt(s, 10)`
on an all-digit capture. -/
def digitsToNat (ds : Str) : Nat :=
  ds.foldl (fun a c => 10 * a + (c.toNat - 48)) 0

/-- Fuel-driven decimal rendering of a positive natural (most significant
digit first). -/
def natDigitsAux : Nat → Nat → Str
  | 0, _ => []
  | _ + 1, 0 => []
  | fuel + 1, n + 1 =>
    natDigitsAux fuel ((n + 1) / 10) ++ [Char.ofNat (48 + (n + 1) % 10)]

/-- Decimal rendering of a natural number, as JS `${n}` renders an
integer id. -/
def natDigits (n : Nat) : Str :=
  if n = 0 then ['0'] else natDigitsAux (n + 1) n

/--
The regex test `trimmedLine.match(/^(\d+)\.\s*(.*)$/)` from
`handleGenerate`: a maximal nonempty digit run, a period, greedy `\s*`,
then `(.*)$` — which succeeds only when no line-terminator character
remains in the capture (a JS `.` does not match CR/U+2028/U+2029, and `$`
anchors at the very end).  Returns `(parseInt(capture1, 10), capture2)`.
-/
def matchNumLine (l : Str) : Option (Nat × Str) :=
  let ds := l.takeWhile isDigitChar
  if ds.isEmpty then none
  else
    match l.dropWhile isDigitChar with
    | c :: r =>
      if c.toNat = 46 then
        let cap := r.dropWhile isJsWs
        if cap.any isLineTerm then none else some (digitsToNat ds, cap)
      else none
    | [] => none

/-- A parsed prompt: `{ id / index, text }` from `App.tsx` (the parser's
`index` field is renamed to `id` when handed to the image stage; both are
modelled by this one structure). -/
structure Prompt where
  id : Nat
  text : Str
deriving DecidableEq, Repr

/-- Parser loop state: prompts pushed so far plus the optional
`currentPrompt` being built. -/
structure PState where
  acc : List Prompt
  cur : Option Prompt
deriving DecidableEq, Repr

/-- `parsedPrompts.push({...currentPrompt, text: currentPrompt.text.trim()})`. -/
def flushCur : Option Prompt → List Prompt
  | none => []
  | some p => [⟨p.id, jsTrim p.text⟩]

/-- One iteration of the parser loop, on the already-trimmed line. -/
def parseStepT (st : PState) (t : Str) : PState :=
  match matchNumLine t with
  | some (n, cap) => ⟨st.acc ++ flushCur st.cur, some ⟨n, jsTrim cap⟩⟩
  | none =>
    match st.cur with
    | some p => if t.isEmpty then st else ⟨st.acc, some ⟨p.id, p.text ++ '\n' :: t⟩⟩
    | none => st

/-- One iteration of the parser loop on a raw line
(`const trimmedLine = line.trim()` first). -/
def parseStep (st : PState) (line : Str) : PState := parseStepT st (jsTrim line)

/-- Run the parser loop over a list of lines and flush the last prompt. -/
def parseLinesRaw (lines : List Str) : List Prompt :=
  let st := lines.foldl parseStep ⟨[], none⟩
  st.acc ++ flushCur st.cur

/-- The custom-prompt parser before sorting:
`customPrompts.trim().split('\n')` driven through the loop. -/
def parseCustomPromptsRaw (x : Str) : List Prompt :=
  parseLinesRaw (splitLines (jsTrim x))

/-- Stable insertion used to model the stable JS `Array.prototype.sort`
with comparator `(a, b) => a.index - b.index`: a new element goes after
all existing elements with a smaller-or-equal id. -/
def insertByIdx (p : Prompt) : List Prompt → List Prompt
  | [] => [p]
  | q :: qs => if p.id < q.id then p :: q :: qs else q :: insertByIdx p qs

/-- Stable ascending sort by id (left fold of stable insertions). -/
def sortByIdx (ps : List Prompt) : List Prompt :=
  ps.foldl (fun acc p => insertByIdx p acc) []

/-- The custom-prompt parser of `handleGenerate` (lines 124–164):
parse, then `.sort((a, b) => a.index - b.index)`. -/
def parseCustomPrompts (x : Str) : List Prompt :=
  sortByIdx (parseCustomPromptsRaw x)

example : parseCustomPrompts ("1. A\n2. B".data) = [⟨1, "A".data⟩, ⟨2, "B".data⟩] := by decide
example : parseCustomPrompts ("1. A\nmore A\n2. B".data) =
    [⟨1, "A\nmore A".data⟩, ⟨2, "B".data⟩] := by decide
example : parseCustomPrompts ("2. B\n1. A".data) = [⟨1, "A".data⟩, ⟨2, "B".data⟩] := by decide
example : parseCustomPrompts ("no numbers here".data) = [] := by decide

/-! ## Image stage: providers, fallback, results -/

/-- The five aspect ratios of `types.ts`. -/
inductive AspectRatio
  | r1x1 | r16x9 | r9x16 | r4x3 | r3x4
deriving DecidableEq, Repr

/-- Image-provider identity (`GeneratedImage.engine` values). -/
inductive Engine
  | google | stability
deriving DecidableEq, Repr

/-- `AppState` from `types.ts`. -/
inductive AppState
  | IDLE | GENERATING_PROMPTS | GENERATING_IMAGES | DONE
deriving DecidableEq, Repr

/-- The prompt-input mode toggle (`PromptSource` in `App.tsx`). -/
inductive PromptSource
  | script | custom
deriving DecidableEq, Repr

/-- Return shape of `generateImage` / `generateImageWithStability`:
`{ base64: string | null; error: string | null }`. -/
structure GenResult where
  base64 : Option Str
  error : Option Str
deriving DecidableEq, Repr

/-- JS truthiness of a `string | null` value: `null` and `''` are falsy. -/
def truthyS : Option Str → Bool
  | some s => !s.isEmpty
  | none => false

/-- `GeneratedImage` from `types.ts` (all optional fields kept optional). -/
structure GeneratedImage where
  id : Nat
  prompt : Str
  base64 : Option Str
  url : Option Str
  error : Option Str
  engine : Option Engine
deriving DecidableEq, Repr

/-- The external image providers and whether `process.env.STABILITY_API_KEY`
is set (truthy), abstracted as oracles. -/
structure Config where
  stabilityConfigured : Bool
  primary : Str → AspectRatio → GenResult
  secondary : Str → AspectRatio → GenResult

/-- The safety-block signature `handleGenerate` greps the primary error
for: `result.error.includes('safety reasons')`. -/
def safetySig : Str := "safety reasons".data

/-- JS `haystack.includes(needle)`: some contiguous run of `hay` equals
`needle`. -/
def hasSubstr (needle : Str) : Str → Bool
  | [] => needle.isEmpty
  | c :: rest => needle.isPrefixOf (c :: rest) || hasSubstr needle rest

/-- The fallback guard of `handleGenerate` (line 193):
`result.error && result.error.includes('safety reasons') && process.env.STABILITY_API_KEY`. -/
def wantsFallback (cfg : Config) (r : GenResult) : Bool :=
  truthyS r.error && hasSubstr safetySig (r.error.getD []) && cfg.stabilityConfigured

/-- `"Google blocked prompt. Stability AI also failed: "` — prefix glued
onto a failed fallback's error (line 200). -/
def fallbackNoticeStr : Str := "Google blocked prompt. Stability AI also failed: ".data

/-- `if (result.error) result.error = `Google blocked prompt. ...`` -/
def enrichError (r : GenResult) : GenResult :=
  if truthyS r.error then { r with error := some (fallbackNoticeStr ++ r.error.getD []) }
  else r

/-- `'Failed to generate image.'` default error (line 218). -/
def failedMsgStr : Str := "Failed to generate image.".data

/-- `data:image/jpeg;base64,` URL prefix (line 211). -/
def dataUrlStr : Str := "data:image/jpeg;base64,".data

/-- Build the terminal `GeneratedImage` from the final provider result
(lines 205–222): success keeps the bytes and url, failure records
`result.error || 'Failed to generate image.'`; both record the engine. -/
def mkResultImage (p : Prompt) (eng : Engine) (r : GenResult) : GeneratedImage :=
  if truthyS r.base64 then
    { id := p.id, prompt := p.text, base64 := r.base64,
      url := some (dataUrlStr ++ r.base64.getD []), error := none, engine := some eng }
  else
    { id := p.id, prompt := p.text, base64 := none, url := none,
      error := some (if truthyS r.error then r.error.getD [] else failedMsgStr),
      engine := some eng }

/-- `finalPrompt` (lines 182–186): custom-mode prompts get the effective
style appended when `effectiveImageStyle.trim()` is truthy; script-mode
prompts are sent unchanged. -/
def finalPromptText (source : PromptSource) (style : Str) (p : Prompt) : Str :=
  match source with
  | .custom => if (jsTrim style).isEmpty then p.text else p.text ++ ", ".data ++ style
  | .script => p.text

/-- Result of processing a single prompt in the image loop, with the
provider calls it issued. -/
structure StepOut where
  image : GeneratedImage
  failed : Bool
  primaryCalls : List (Str × AspectRatio)
  secondaryCalls : List (Str × AspectRatio)

/-- The body of the image loop (lines 178–226) for one prompt: primary
attempt, the safety-gated fallback to the secondary provider with the
identical final prompt and aspect ratio, error enrichment, and the
terminal result. -/
def processPrompt (cfg : Config) (source : PromptSource) (style : Str)
    (ratio : AspectRatio) (p : Prompt) : StepOut :=
  let fp := finalPromptText source style p
  let r0 := cfg.primary fp ratio
  if wantsFallback cfg r0 then
    let r2 := enrichError (cfg.secondary fp ratio)
    { image := mkResultImage p .stability r2, failed := !truthyS r2.base64,
      primaryCalls := [(fp, ratio)], secondaryCalls := [(fp, ratio)] }
  else
    { image := mkResultImage p .google r0, failed := !truthyS r0.base64,
      primaryCalls := [(fp, ratio)], secondaryCalls := [] }

/-- Accumulated state of the image loop: `imageResults`,
`localFailedPrompts`, and the provider-call logs. -/
structure LoopAcc where
  images : List GeneratedImage
  failed : List Prompt
  primaryCalls : List (Str × AspectRatio)
  secondaryCalls : List (Str × AspectRatio)

/-- One iteration of the image loop appended onto the accumulator. -/
def loopStep (cfg : Config) (source : PromptSource) (style : Str)
    (ratio : AspectRatio) (acc : LoopAcc) (p : Prompt) : LoopAcc :=
  let out := processPrompt cfg source style ratio p
  { images := acc.images ++ [out.image],
    failed := acc.failed ++ (if out.failed then [p] else []),
    primaryCalls := acc.primaryCalls ++ out.primaryCalls,
    secondaryCalls := acc.secondaryCalls ++ out.secondaryCalls }

/-- The strictly sequential image loop over `promptsToProcess`. -/
def runImageLoop (cfg : Config) (source : PromptSource) (style : Str)
    (ratio : AspectRatio) (prompts : List Prompt) : LoopAcc :=
  prompts.foldl (loopStep cfg source style ratio) ⟨[], [], [], []⟩

/-! ## Style resolver and orchestrator -/

/-- The style-resolution step (lines 84–101): no reference image keeps
the user keywords; with one, a successful analysis yields
`` `${styleFromImage}, ${imageStyle}` `` and a failure aborts. -/
def resolveStyle (referenceImage : Option Unit) (analyze : Except Str Str)
    (imageStyle : Str) : Except Str Str :=
  match referenceImage with
  | none => .ok imageStyle
  | some _ =>
    match analyze with
    | .error m => .error m
    | .ok s => .ok (s ++ ", ".data ++ imageStyle)

/-- `'Script cannot be empty.'` -/
def scriptEmptyMsg : Str := "Script cannot be empty.".data

/-- `'Custom prompts field cannot be empty.'` -/
def customEmptyMsg : Str := "Custom prompts field cannot be empty.".data

/-- The no-valid-prompts validation message (line 154). -/
def noValidMsg : Str :=
  "No valid numbered prompts found. Use a format like \"1. Your prompt\". Each prompt must start on a new line with a number and a period.".data

/-- `"No prompts were generated or provided."` (line 168). -/
def noPromptsMsg : Str := "No prompts were generated or provided.".data

/-- Numbering of synthesized prompts: `generated.map((p, i) => ({ id: i + 1, text: p }))`. -/
def numberFrom (i : Nat) : List Str → List Prompt
  | [] => []
  | t :: ts => ⟨i, t⟩ :: numberFrom (i + 1) ts

/-- The inputs of one `handleGenerate` run, with every external AI call
abstracted as an oracle. -/
structure Env where
  promptSource : PromptSource
  script : Str
  customPrompts : Str
  imageStyle : Str
  niche : Str
  aspectRatio : AspectRatio
  referenceImage : Option Unit
  analyzeResult : Except Str Str
  generatePromptsResult : Except Str (List Str × Str)
  stabilityConfigured : Bool
  primary : Str → AspectRatio → GenResult
  secondary : Str → AspectRatio → GenResult

/-- The provider configuration an environment induces. -/
def Env.config (env : Env) : Config :=
  ⟨env.stabilityConfigured, env.primary, env.secondary⟩

/-- Prompt acquisition (lines 103–171): script-mode validation and
synthesis, or custom-mode validation and parsing. -/
def acquirePrompts (env : Env) : Except Str (List Prompt) :=
  match env.promptSource with
  | .script =>
    if (jsTrim env.script).isEmpty then .error scriptEmptyMsg
    else
      match env.generatePromptsResult with
      | .error m => .error m
      | .ok gen => .ok (numberFrom 1 gen.1)
  | .custom =>
    if (jsTrim env.customPrompts).isEmpty then .error customEmptyMsg
    else
      let ps := parseCustomPrompts env.customPrompts
      if ps.isEmpty then .error noValidMsg else .ok ps

/-- The externally observable outcome of one `handleGenerate` run.
`analyzeCalls` counts the style-analysis AI calls issued (the
`analyzeImageStyle` call at lines 92–93). -/
structure Outcome where
  appState : AppState
  error : Option Str
  generatedPrompts : List Prompt
  generatedImages : List GeneratedImage
  failedPrompts : List Prompt
  primaryCalls : List (Str × AspectRatio)
  secondaryCalls : List (Str × AspectRatio)
  analyzeCalls : Nat
deriving Repr

/-- Number of style-analysis calls a run issues: the call inside
`if (referenceImageFile)` happens exactly when a reference image is
present, before any prompt validation (it is counted even when the
analysis itself fails). -/
def analyzeCallCount (env : Env) : Nat :=
  match env.referenceImage with
  | some _ => 1
  | none => 0

/-- An aborted run: `setError(m); setAppState(AppState.IDLE); return;`
with all per-run lists still holding their reset (empty) values. -/
def idleOutcome (ac : Nat) (m : Str) : Outcome :=
  ⟨.IDLE, some m, [], [], [], [], [], ac⟩

/-- The completed run: the image loop over the acquired prompts, then
`setAppState(AppState.DONE)`. -/
def doneOutcome (env : Env) (effStyle : Str) (prompts : List Prompt) : Outcome :=
  let la := runImageLoop env.config env.promptSource effStyle env.aspectRatio prompts
  ⟨.DONE, none, prompts, la.images, la.failed, la.primaryCalls, la.secondaryCalls,
    analyzeCallCount env⟩

/-- `handleGenerate` (lines 74–243): style resolution, prompt
acquisition, the emptiness check, then the sequential image loop. -/
def handleGenerate (env : Env) : Outcome :=
  match resolveStyle env.referenceImage env.analyzeResult env.imageStyle with
  | .error m => idleOutcome (analyzeCallCount env) m
  | .ok effStyle =>
    match acquirePrompts env with
    | .error m => idleOutcome (analyzeCallCount env) m
    | .ok prompts =>
      if prompts.isEmpty then idleOutcome (analyzeCallCount env) noPromptsMsg
      else doneOutcome env effStyle prompts

/-- The re-entrancy/validation guard on the Generate button
(`App.tsx` lines 419–423): `isLoading || (script mode && !script.trim())
|| (custom mode && !customPrompts.trim())`. -/
def isLoadingState (s : AppState) : Bool :=
  match s with
  | .GENERATING_PROMPTS => true
  | .GENERATING_IMAGES => true
  | _ => false

/-- The `disabled` attribute of the Generate button. -/
def generateDisabled (s : AppState) (src : PromptSource)
    (scriptText customText : Str) : Bool :=
  isLoadingState s ||
  (match src with | .script => (jsTrim scriptText).isEmpty | .custom => false) ||
  (match src with | .custom => (jsTrim customText).isEmpty | .script => false)

/-! ## Reference definitions taken from the specification's words -/

/-- The spec's style join: `"<derived style>, <user keywords>"`, omitting
either half if absent (§4.2 of the spec) — to be compared with
`resolveStyle`. -/
def specStyleJoin (derived userKw : Str) : Str :=
  if derived.isEmpty then userKw
  else if userKw.isEmpty then derived
  else derived ++ ", ".data ++ userKw

/-- Reference parser state of spec §4.1: `NoActivePrompt` or
`BuildingPrompt` with the id and the body lines collected so far. -/
inductive MachineState
  | noActive
  | building (idx : Nat) (bodyLines : List Str)
deriving DecidableEq, Repr

/-- Flush of the reference machine: body lines joined with newlines,
leading/trailing whitespace stripped. -/
def finishPrompt (i : Nat) (ls : List Str) : Prompt :=
  ⟨i, jsTrim (joinLines ls)⟩

/-- Transition of the reference state machine exactly as the claim words
it: the raw line is matched against `^(\d+)\.\s*(.*)$`; a match starts a
new prompt (flushing the prior one); non-matching non-blank lines are
appended as continuations; blank lines and lines before the first
numbered line are discarded. -/
def machineStepRaw (s : List Prompt × MachineState) (line : Str) :
    List Prompt × MachineState :=
  match matchNumLine line, s.2 with
  | some (n, cap), .noActive => (s.1, .building n [cap])
  | some (n, cap), .building i ls => (s.1 ++ [finishPrompt i ls], .building n [cap])
  | none, .noActive => s
  | none, .building i ls =>
    if (jsTrim line).isEmpty then s else (s.1, .building i (ls ++ [line]))

/-- Final flush of the reference machine: emit the prompt still being
built, if any. -/
def finishMachine : MachineState → List Prompt
  | .noActive => []
  | .building i ls => [finishPrompt i ls]

/-- The reference state machine of the claim, literally: raw lines are
matched, and the output is sorted by ascending numeric id. -/
def specMachineParseRaw (x : Str) : List Prompt :=
  let s := (splitLines x).foldl machineStepRaw ([], .noActive)
  sortByIdx (s.1 ++ finishMachine s.2)

/-- Transition of the amended reference machine: identical to
`machineStepRaw` except that every line is first stripped of
leading/trailing whitespace (matching, blankness, and the appended
continuation all use the stripped line). -/
def machineStepTrim (s : List Prompt × MachineState) (line : Str) :
    List Prompt × MachineState :=
  let t := jsTrim line
  match matchNumLine t, s.2 with
  | some (n, cap), .noActive => (s.1, .building n [jsTrim cap])
  | some (n, cap), .building i ls => (s.1 ++ [finishPrompt i ls], .building n [jsTrim cap])
  | none, .noActive => s
  | none, .building i ls =>
    if t.isEmpty then s else (s.1, .building i (ls ++ [t]))

/-- The amended reference state machine (per-line trimming added). -/
def specMachineParseTrim (x : Str) : List Prompt :=
  let s := (splitLines x).foldl machineStepTrim ([], .noActive)
  sortByIdx (s.1 ++ finishMachine s.2)

/-- One `"id. text"` block of the reconstruction. -/
def renderBlock (p : Prompt) : Str := natDigits p.id ++ '.' :: ' ' :: p.text

/-- Reconstruction of a parsed list as `"id. text"` blocks joined by
blank lines (the rendering named by the idempotence property). -/
def renderPrompts : List Prompt → Str
  | [] => []
  | [p] => renderBlock p
  | p :: ps => renderBlock p ++ '\n' :: '\n' :: renderPrompts ps

example : renderPrompts [⟨1, "A".data⟩, ⟨2, "B".data⟩] = "1. A\n\n2. B".data := by decide
example :
    parseCustomPrompts (renderPrompts (parseCustomPrompts ("2. B\n1. A\nmore".data))) =
      parseCustomPrompts ("2. B\n1. A\nmore".data) := by decide

/-- Append a character to the last piece of a split (used to relate
`splitLines (x ++ [c])` to `splitLines x` for non-newline `c`). -/
def appendToLast : List Str → Char → List Str
  | [], c => [[c]]
  | [l], c => [l ++ [c]]
  | l :: ls, c => l :: appendToLast ls c

/-- Simulation relation between the code parser's `currentPrompt` and the
reference machine's state. -/
def RelPM : Option Prompt → MachineState → Prop
  | none, .noActive => True
  | some p, .building i ls => p.id = i ∧ p.text = joinLines ls ∧ ls ≠ []
  | _, _ => False

/-- A line of a well-formed parsed text: trimmed, nonempty, and free of
hard line terminators. -/
def GoodLine (l : Str) : Prop :=
  jsTrim l = l ∧ l ≠ [] ∧ (∀ c ∈ l, isHardTerm c = false)

/-- Well-formedness of a flushed prompt text: empty, or all lines good
with every line after the first failing the numbered-line match. -/
def WFText (t : Str) : Prop :=
  t = [] ∨ ((∀ l ∈ splitLines t, GoodLine l) ∧
    (∀ l ∈ (splitLines t).tail, matchNumLine l = none))

/-- Invariant of the text accumulating in `currentPrompt`: a first piece
(the trimmed capture, possibly empty) followed by good, non-matching,
newline-free continuation lines. -/
def AccText (t : Str) : Prop :=
  ∃ m2t conts, t = joinLines (m2t :: conts) ∧
    jsTrim m2t = m2t ∧ (∀ c ∈ m2t, isHardTerm c = false) ∧
    (∀ c ∈ m2t, isNL c = false) ∧
    (∀ l ∈ conts, GoodLine l ∧ matchNumLine l = none ∧ (∀ c ∈ l, isNL c = false))

/-! ## Concrete providers and environments used in witnesses -/

/-- A provider that always succeeds with fixed bytes. -/
def okProvider : Str → AspectRatio → GenResult := fun _ _ => ⟨some ("IMG".data), none⟩

/-- A provider that always fails with a generic message. -/
def errProvider : Str → AspectRatio → GenResult := fun _ _ => ⟨none, some ("boom".data)⟩

/-- The safety-block error text `generateImage` returns. -/
def safetyBlockedMsg : Str :=
  "This prompt was blocked for safety reasons. Please try rephrasing it.".data

/-- A primary provider that always reports a safety block. -/
def blockedProvider : Str → AspectRatio → GenResult := fun _ _ => ⟨none, some safetyBlockedMsg⟩

/-- A secondary provider that fails like the Stability wrapper does. -/
def stabilityFailProvider : Str → AspectRatio → GenResult :=
  fun _ _ => ⟨none, some ("Stability AI Error: boom".data)⟩

/-- Configuration with no Stability key and a succeeding primary. -/
def cfgSuccess : Config := ⟨false, okProvider, errProvider⟩

/-- Configuration with a Stability key, a safety-blocked primary and a
failing secondary. -/
def cfgBlocked : Config := ⟨true, blockedProvider, stabilityFailProvider⟩

/-- A small custom-mode environment whose run completes. -/
def demoEnv : Env :=
  ⟨.custom, [], "1. A".data, [], [], .r16x9, none, Except.ok [], Except.ok ([], []),
    false, okProvider, errProvider⟩

/-- `demoEnv` with a leading space before the numbered line. -/
def envLeadingSpace : Env := { demoEnv with customPrompts := " 1. A".data }

/-- `demoEnv` with no numbered line at all. -/
def envNoNumbered : Env := { demoEnv with customPrompts := "hello\nworld".data }

/-- No numbered line, a reference image present, and a failing style
analysis. -/
def envStyleFail : Env :=
  { demoEnv with
    customPrompts := "hello\nworld".data
    referenceImage := some ()
    analyzeResult := Except.error ("Failed to analyze the reference image style.".data) }

/-- No numbered line, a reference image present, and a succeeding style
analysis. -/
def envStyleOk : Env :=
  { demoEnv with
    customPrompts := "hello\nworld".data
    referenceImage := some ()
    analyzeResult := Except.ok ("oil painting".data) }

/-! ## Helper lemmas about the image stage -/

theorem mkResultImage_id (p : Prompt) (eng : Engine) (r : GenResult) :
    (mkResultImage p eng r).id = p.id := by
  unfold mkResultImage; split <;> rfl

theorem mkResultImage_prompt (p : Prompt) (eng : Engine) (r : GenResult) :
    (mkResultImage p eng r).prompt = p.text := by
  unfold mkResultImage; split <;> rfl

theorem mkResultImage_engine (p : Prompt) (eng : Engine) (r : GenResult) :
    (mkResultImage p eng r).engine = some eng := by
  unfold mkResultImage; split <;> rfl

theorem processPrompt_primaryCalls (cfg : Config) (source : PromptSource) (style : Str)
    (ratio : AspectRatio) (p : Prompt) :
    (processPrompt cfg source style ratio p).primaryCalls =
      [(finalPromptText source style p, ratio)] := by
  by_cases h : wantsFallback cfg (cfg.primary (finalPromptText source style p) ratio) <;>
    simp [processPrompt, h]

theorem processPrompt_secondaryCalls (cfg : Config) (source : PromptSource) (style : Str)
    (ratio : AspectRatio) (p : Prompt) :
    (processPrompt cfg source style ratio p).secondaryCalls =
      if wantsFallback cfg (cfg.primary (finalPromptText source style p) ratio) then
        [(finalPromptText source style p, ratio)]
      else [] := by
  by_cases h : wantsFallback cfg (cfg.primary (finalPromptText source style p) ratio) <;>
    simp [processPrompt, h]

theorem processPrompt_image_engine (cfg : Config) (source : PromptSource) (style : Str)
    (ratio : AspectRatio) (p : Prompt) :
    (processPrompt cfg source style ratio p).image.engine =
      some (if wantsFallback cfg (cfg.primary (finalPromptText source style p) ratio) then
        Engine.stability else Engine.google) := by
  by_cases h : wantsFallback cfg (cfg.primary (finalPromptText source style p) ratio) <;>
    simp [processPrompt, h, mkResultImage_engine]

theorem processPrompt_image_id (cfg : Config) (source : PromptSource) (style : Str)
    (ratio : AspectRatio) (p : Prompt) :
    (processPrompt cfg source style ratio p).image.id = p.id := by
  by_cases h : wantsFallback cfg (cfg.primary (finalPromptText source style p) ratio) <;>
    simp [processPrompt, h, mkResultImage_id]

theorem processPrompt_image_prompt (cfg : Config) (source : PromptSource) (style : Str)
    (ratio : AspectRatio) (p : Prompt) :
    (processPrompt cfg source style ratio p).image.prompt = p.text := by
  by_cases h : wantsFallback cfg (cfg.primary (finalPromptText source style p) ratio) <;>
    simp [processPrompt, h, mkResultImage_prompt]

theorem foldl_loopStep_images (cfg : Config) (source : PromptSource) (style : Str)
    (ratio : AspectRatio) (ps : List Prompt) :
    ∀ acc : LoopAcc,
      (ps.foldl (loopStep cfg source style ratio) acc).images =
        acc.images ++ ps.map (fun p => (processPrompt cfg source style ratio p).image) := by
  induction ps with
  | nil => intro acc; simp
  | cons p ps ih =>
    intro acc
    simp only [List.foldl_cons, List.map_cons]
    rw [ih]
    simp [loopStep]

theorem foldl_loopStep_primaryCalls (cfg : Config) (source : PromptSource) (style : Str)
    (ratio : AspectRatio) (ps : List Prompt) :
    ∀ acc : LoopAcc,
      (ps.foldl (loopStep cfg source style ratio) acc).primaryCalls =
        acc.primaryCalls ++ ps.map (fun p => (finalPromptText source style p, ratio)) := by
  induction ps with
  | nil => intro acc; simp
  | cons p ps ih =>
    intro acc
    simp only [List.foldl_cons, List.map_cons]
    rw [ih]
    simp [loopStep, processPrompt_primaryCalls]

theorem runImageLoop_images (cfg : Config) (source : PromptSource) (style : Str)
    (ratio : AspectRatio) (ps : List Prompt) :
    (runImageLoop cfg source style ratio ps).images =
      ps.map (fun p => (processPrompt cfg source style ratio p).image) := by
  simpa using foldl_loopStep_images cfg source style ratio ps ⟨[], [], [], []⟩

theorem runImageLoop_primaryCalls (cfg : Config) (source : PromptSource) (style : Str)
    (ratio : AspectRatio) (ps : List Prompt) :
    (runImageLoop cfg source style ratio ps).primaryCalls =
      ps.map (fun p => (finalPromptText source style p, ratio)) := by
  simpa using foldl_loopStep_primaryCalls cfg source style ratio ps ⟨[], [], [], []⟩

theorem hasSubstr_safetySig_ne_nil {e : Str} (h : hasSubstr safetySig e = true) : e ≠ [] := by
  intro he
  subst he
  revert h
  decide

/-! ## Claim theorems: image stage and orchestrator -/

/-- C1: for every prompt processed by the image stage, when the primary
attempt fails the secondary provider is invoked iff the primary error
message contains the safety-block signature and the secondary provider is
configured; any secondary attempt uses the identical prompt text and
aspect ratio as the primary attempt; and when the primary attempt
succeeds (no error) the secondary provider is never invoked. -/
theorem c1_fallback_policy (cfg : Config) (source : PromptSource) (style : Str)
    (ratio : AspectRatio) (p : Prompt) :
    ((processPrompt cfg source style ratio p).secondaryCalls ≠ [] ↔
      (∃ e, (cfg.primary (finalPromptText source style p) ratio).error = some e ∧
        hasSubstr safetySig e = true ∧ cfg.stabilityConfigured = true)) ∧
    ((processPrompt cfg source style ratio p).secondaryCalls ≠ [] →
      (processPrompt cfg source style ratio p).secondaryCalls =
        [(finalPromptText source style p, ratio)]) ∧
    ((cfg.primary (finalPromptText source style p) ratio).error = none →
      (processPrompt cfg source style ratio p).secondaryCalls = []) := by
  have hsc := processPrompt_secondaryCalls cfg source style ratio p
  refine ⟨?_, ?_, ?_⟩
  · rw [hsc]
    by_cases hw : wantsFallback cfg (cfg.primary (finalPromptText source style p) ratio)
    · simp only [hw, if_true]
      constructor
      · intro _
        unfold wantsFallback at hw
        rcases Bool.and_eq_true_iff.mp hw with ⟨hw1, hst⟩
        rcases Bool.and_eq_true_iff.mp hw1 with ⟨htr, hsub⟩
        cases hre : (cfg.primary (finalPromptText source style p) ratio).error with
        | none => rw [hre] at htr; simp [truthyS] at htr
        | some e =>
          refine ⟨e, rfl, ?_, hst⟩
          rw [hre] at hsub
          simpa using hsub
      · intro _; simp
    · simp only [hw, if_false]
      constructor
      · intro h; exact absurd rfl h
      · intro hex
        exfalso
        rcases hex with ⟨e, he, hsub, hst⟩
        have hwt : wantsFallback cfg (cfg.primary (finalPromptText source style p) ratio)
            = true := by
          unfold wantsFallback
          rw [he]
          simp [truthyS, hsub, hst, hasSubstr_safetySig_ne_nil hsub]
        rw [hwt] at hw
        simp at hw
  · intro hne
    rw [hsc] at hne ⊢
    by_cases hw : wantsFallback cfg (cfg.primary (finalPromptText source style p) ratio) <;>
      simp [hw] at hne ⊢
  · intro herr
    rw [hsc]
    have : wantsFallback cfg (cfg.primary (finalPromptText source style p) ratio) = false := by
      unfold wantsFallback
      rw [herr]
      simp [truthyS]
    simp [this]

/-- Witness for C1 at a concrete succeeding primary: no secondary call. -/
theorem c1_fallback_policy_witness :
    (processPrompt cfgSuccess .script [] .r16x9 ⟨1, "A".data⟩).secondaryCalls = [] :=
  (c1_fallback_policy cfgSuccess .script [] .r16x9 ⟨1, "A".data⟩).2.2 rfl

/-- C7: for a prompt whose primary attempt was safety-blocked and whose
secondary attempt also fails, the error recorded on the terminal result
is the concatenation `"<primary-blocked-notice>. <secondary-provider-name>
also failed: <secondary error>"` with notice `"Google blocked prompt"`
and secondary name `"Stability AI"`. -/
theorem c7_fallback_error_concat (cfg : Config) (source : PromptSource) (style : Str)
    (ratio : AspectRatio) (p : Prompt) (e0 e1 : Str)
    (hp : cfg.primary (finalPromptText source style p) ratio = ⟨none, some e0⟩)
    (hsig : hasSubstr safetySig e0 = true)
    (hkey : cfg.stabilityConfigured = true)
    (hs : cfg.secondary (finalPromptText source style p) ratio = ⟨none, some e1⟩)
    (he1 : e1 ≠ []) :
    (processPrompt cfg source style ratio p).image.error =
      some ("Google blocked prompt".data ++ ". ".data ++ "Stability AI".data ++
        " also failed: ".data ++ e1) := by
  have he0 : e0 ≠ [] := hasSubstr_safetySig_ne_nil hsig
  have hw : wantsFallback cfg (cfg.primary (finalPromptText source style p) ratio) = true := by
    unfold wantsFallback
    rw [hp]
    simp [truthyS, hsig, hkey, he0]
  rw [show ("Google blocked prompt".data ++ ". ".data ++ "Stability AI".data ++
    " also failed: ".data : Str) = fallbackNoticeStr from by decide]
  have henr : enrichError (cfg.secondary (finalPromptText source style p) ratio) =
      ⟨none, some (fallbackNoticeStr ++ e1)⟩ := by
    rw [hs]
    unfold enrichError
    simp [truthyS, he1]
  have hne2 : fallbackNoticeStr ++ e1 ≠ [] := by
    intro hcon
    exact absurd (List.append_eq_nil.mp hcon).1 (by decide)
  simp only [processPrompt, hw, if_true, henr]
  unfold mkResultImage
  simp [truthyS, hne2]

/-- Witness for C7 at a concrete blocked primary and failing secondary. -/
theorem c7_fallback_error_concat_witness :
    (processPrompt cfgBlocked .script [] .r16x9 ⟨1, "A".data⟩).image.error =
      some ("Google blocked prompt".data ++ ". ".data ++ "Stability AI".data ++
        " also failed: ".data ++ "Stability AI Error: boom".data) :=
  c7_fallback_error_concat cfgBlocked .script [] .r16x9 ⟨1, "A".data⟩
    safetyBlockedMsg ("Stability AI Error: boom".data) rfl (by decide) rfl rfl (by decide)

/-- C10: every terminal result carries an engine tag (never absent), and
per prompt the tag is the secondary provider exactly when a fallback
attempt was made (even a failed one), the primary provider otherwise. -/
theorem c10_engine_tag (cfg : Config) (source : PromptSource) (style : Str)
    (ratio : AspectRatio) :
    (∀ ps : List Prompt, ∀ r ∈ (runImageLoop cfg source style ratio ps).images,
      r.engine ≠ none) ∧
    (∀ p : Prompt, ∃ eng,
      (processPrompt cfg source style ratio p).image.engine = some eng ∧
      ((eng = Engine.stability) ↔
        (processPrompt cfg source style ratio p).secondaryCalls ≠ [])) := by
  constructor
  · intro ps r hr
    rw [runImageLoop_images] at hr
    rcases List.mem_map.mp hr with ⟨p, _, hp⟩
    rw [← hp, processPrompt_image_engine]
    exact Option.some_ne_none _
  · intro p
    rw [processPrompt_image_engine, processPrompt_secondaryCalls]
    by_cases hw : wantsFallback cfg (cfg.primary (finalPromptText source style p) ratio)
    · exact ⟨Engine.stability, by simp [hw], by simp [hw]⟩
    · exact ⟨Engine.google, by simp [hw], by simp [hw]⟩

/-- Witness for C10 at a concrete configuration and prompt. -/
theorem c10_engine_tag_witness :
    ∃ eng, (processPrompt cfgSuccess .script [] .r16x9 ⟨1, "A".data⟩).image.engine = some eng ∧
      ((eng = Engine.stability) ↔
        (processPrompt cfgSuccess .script [] .r16x9 ⟨1, "A".data⟩).secondaryCalls ≠ []) :=
  (c10_engine_tag cfgSuccess .script [] .r16x9).2 ⟨1, "A".data⟩

/-- C9: in custom mode with a nonempty effective style, the text sent to
the primary provider for each prompt is `"<parsed text>, <effective
style>"` while the recorded `prompt` field stays the un-styled parsed
text; in script mode the synthesized text is sent unchanged. -/
theorem c9_style_application (cfg : Config) (style : Str) (ratio : AspectRatio)
    (ps qs : List Prompt) (hstyle : (jsTrim style).isEmpty = false) :
    (runImageLoop cfg .custom style ratio ps).primaryCalls =
      ps.map (fun p => (p.text ++ ", ".data ++ style, ratio)) ∧
    (runImageLoop cfg .custom style ratio ps).images.map GeneratedImage.prompt =
      ps.map Prompt.text ∧
    (runImageLoop cfg .script style ratio qs).primaryCalls =
      qs.map (fun p => (p.text, ratio)) := by
  refine ⟨?_, ?_, ?_⟩
  · rw [runImageLoop_primaryCalls]
    apply List.map_congr_left
    intro p _
    simp [finalPromptText, hstyle]
  · rw [runImageLoop_images, List.map_map]
    apply List.map_congr_left
    intro p _
    simp [Function.comp, processPrompt_image_prompt]
  · rw [runImageLoop_primaryCalls]
    apply List.map_congr_left
    intro p _
    simp [finalPromptText]

/-- Witness for C9 at a concrete style and prompt list. -/
theorem c9_style_application_witness :
    (runImageLoop cfgSuccess .custom ("noir".data) .r16x9 [⟨1, "A".data⟩]).primaryCalls =
      [("A".data ++ ", ".data ++ "noir".data, .r16x9)] :=
  (c9_style_application cfgSuccess ("noir".data) .r16x9 [⟨1, "A".data⟩] [] (by decide)).1

/-- C6: the Generate control is enabled only in the `Idle` or `Done`
states — a run request is rejected whenever the pipeline is synthesizing
prompts or images. -/
theorem c6_reentrancy_guard (s : AppState) (src : PromptSource)
    (scriptText customText : Str)
    (h : generateDisabled s src scriptText customText = false) :
    s = AppState.IDLE ∨ s = AppState.DONE := by
  cases s <;> simp_all [generateDisabled, isLoadingState]

/-- Witness for C6: with a nonempty script in the Idle state the guard is
off, and the state is Idle or Done. -/
theorem c6_reentrancy_guard_witness :
    AppState.IDLE = AppState.IDLE ∨ AppState.IDLE = AppState.DONE :=
  c6_reentrancy_guard .IDLE .script ("x".data) [] (by decide)

/-- C5 counterexample: with a reference image whose analysis yields
`"oil painting"` and empty user keywords, the code produces
`"oil painting, "` (the comma-space join is unconditional), while the
claimed rule — omit an absent half — would produce `"oil painting"`. -/
theorem c5_counterexample :
    resolveStyle (some ()) (Except.ok ("oil painting".data)) [] =
      Except.ok ("oil painting, ".data) ∧
    specStyleJoin ("oil painting".data) [] = "oil painting".data ∧
    ("oil painting, ".data : Str) ≠ "oil painting".data := by
  refine ⟨rfl, by decide, by decide⟩

/-- C5 amended: with no reference image the effective style is exactly
the user keywords; with one whose analysis succeeds it is always
`"<derived style>, <user keywords>"`, the join applied unconditionally
even when either half is empty. -/
theorem c5_amended_style_descriptor (analyze : Except Str Str) (kw d : Str) :
    resolveStyle none analyze kw = Except.ok kw ∧
    resolveStyle (some ()) (Except.ok d) kw = Except.ok (d ++ ", ".data ++ kw) :=
  ⟨rfl, rfl⟩

/-- C2: whenever a run reaches `Done`, the generated-result list has
exactly one terminal result per submitted prompt, in the same id order,
regardless of how many per-prompt generations failed. -/
theorem c2_done_alignment (env : Env)
    (h : (handleGenerate env).appState = AppState.DONE) :
    (handleGenerate env).generatedImages.length =
      (handleGenerate env).generatedPrompts.length ∧
    (handleGenerate env).generatedImages.map GeneratedImage.id =
      (handleGenerate env).generatedPrompts.map Prompt.id := by
  unfold handleGenerate at h ⊢
  split at h
  · simp [idleOutcome] at h
  · split at h
    · simp [idleOutcome] at h
    · split at h
      · simp [idleOutcome] at h
      · rename_i hps
        rw [if_neg hps]
        unfold doneOutcome
        simp only [runImageLoop_images, List.map_map]
        constructor
        · simp
        · apply List.map_congr_left
          intro p _
          simp [Function.comp, processPrompt_image_id]

/-- Witness for C2: a concrete completed run. -/
theorem c2_done_alignment_witness :
    (handleGenerate demoEnv).generatedImages.length =
      (handleGenerate demoEnv).generatedPrompts.length ∧
    (handleGenerate demoEnv).generatedImages.map GeneratedImage.id =
      (handleGenerate demoEnv).generatedPrompts.map Prompt.id :=
  c2_done_alignment demoEnv (by decide)

/-! ## String infrastructure lemmas -/

theorem splitLines_ne_nil (x : Str) : splitLines x ≠ [] := by
  cases x with
  | nil => simp [splitLines]
  | cons c rest =>
    unfold splitLines
    by_cases h : isNL c
    · simp [h]
    · simp only [h, if_false]
      cases splitLines rest <;> simp

theorem splitLines_cons_nl {c : Char} (h : isNL c = true) (x : Str) :
    splitLines (c :: x) = [] :: splitLines x := by
  rw [splitLines]
  simp [h]

theorem splitLines_cons_not_nl {c : Char} (h : isNL c = false) {x : Str} {l : Str}
    {ls : List Str} (hx : splitLines x = l :: ls) :
    splitLines (c :: x) = (c :: l) :: ls := by
  rw [splitLines, hx]
  simp [h]

theorem trimL_cons_ws {c : Char} (h : isJsWs c = true) (l : Str) :
    trimL (c :: l) = trimL l := by
  simp [trimL, List.dropWhile_cons, h]

theorem trimL_cons_not_ws {c : Char} (h : isJsWs c = false) (l : Str) :
    trimL (c :: l) = c :: l := by
  simp [trimL, List.dropWhile_cons, h]

theorem trimR_append_ws {c : Char} (h : isJsWs c = true) (l : Str) :
    trimR (l ++ [c]) = trimR l := by
  simp [trimR, List.reverse_append, trimL_cons_ws h]

theorem trimR_append_not_ws {c : Char} (h : isJsWs c = false) (l : Str) :
    trimR (l ++ [c]) = l ++ [c] := by
  simp [trimR, List.reverse_append, trimL_cons_not_ws h]

theorem jsTrim_nil : jsTrim [] = [] := rfl

theorem jsTrim_cons_ws {c : Char} (h : isJsWs c = true) (l : Str) :
    jsTrim (c :: l) = jsTrim l := by
  simp [jsTrim, trimL_cons_ws h]

theorem trimL_append_of_ne_nil {l : Str} {d : Char} {ds : Str}
    (h : trimL l = d :: ds) (l' : Str) : trimL (l ++ l') = d :: ds ++ l' := by
  induction l with
  | nil => simp [trimL] at h
  | cons c cs ih =>
    cases hc : isJsWs c with
    | true =>
      rw [trimL_cons_ws hc] at h
      rw [List.cons_append, trimL_cons_ws hc]
      exact ih h
    | false =>
      rw [trimL_cons_not_ws hc] at h
      cases h
      rw [List.cons_append, trimL_cons_not_ws hc]

theorem trimL_all_ws_append {l : Str} (h : trimL l = []) (l' : Str) :
    trimL (l ++ l') = trimL l' := by
  induction l with
  | nil => simp
  | cons c cs ih =>
    cases hc : isJsWs c with
    | true =>
      rw [trimL_cons_ws hc] at h
      rw [List.cons_append, trimL_cons_ws hc]
      exact ih h
    | false =>
      rw [trimL_cons_not_ws hc] at h
      cases h

theorem jsTrim_append_ws {c : Char} (h : isJsWs c = true) (l : Str) :
    jsTrim (l ++ [c]) = jsTrim l := by
  unfold jsTrim
  cases htl : trimL l with
  | nil =>
    rw [trimL_all_ws_append htl [c], trimL_cons_ws h]
    simp [trimL]
  | cons d ds =>
    rw [trimL_append_of_ne_nil htl [c], trimR_append_ws h]

theorem length_trimL_le (l : Str) : (trimL l).length ≤ l.length := by
  induction l with
  | nil => simp [trimL]
  | cons c cs ih =>
    cases hc : isJsWs c with
    | true => rw [trimL_cons_ws hc]; exact Nat.le_succ_of_le ih
    | false => rw [trimL_cons_not_ws hc]

theorem trimL_eq_self_of_length {l : Str} (h : (trimL l).length = l.length) :
    trimL l = l := by
  induction l with
  | nil => simp [trimL]
  | cons c cs ih =>
    cases hc : isJsWs c with
    | true =>
      rw [trimL_cons_ws hc] at h
      simp only [List.length_cons] at h
      have := length_trimL_le cs
      omega
    | false => exact trimL_cons_not_ws hc cs

theorem length_trimR_le (l : Str) : (trimR l).length ≤ l.length := by
  unfold trimR
  rw [List.length_reverse]
  calc (trimL l.reverse).length ≤ l.reverse.length := length_trimL_le _
    _ = l.length := List.length_reverse l

theorem trimL_eq_of_jsTrim_eq {l : Str} (h : jsTrim l = l) : trimL l = l := by
  apply trimL_eq_self_of_length
  have h1 := length_trimL_le l
  have h2 := length_trimR_le (trimL l)
  unfold jsTrim at h
  have : (trimR (trimL l)).length = l.length := by rw [h]
  omega

theorem trimR_eq_of_jsTrim_eq {l : Str} (h : jsTrim l = l) : trimR l = l := by
  have h1 := trimL_eq_of_jsTrim_eq h
  unfold jsTrim at h
  rw [h1] at h
  exact h

theorem head_not_ws_of_trimmed {c : Char} {l : Str} (h : jsTrim (c :: l) = c :: l) :
    isJsWs c = false := by
  by_contra hc
  have hc' : isJsWs c = true := by
    cases hws : isJsWs c
    · exact absurd hws hc
    · rfl
  have h1 := trimL_eq_of_jsTrim_eq h
  rw [trimL_cons_ws hc'] at h1
  have := length_trimL_le l
  have : (trimL l).length = l.length + 1 := by rw [h1]; simp
  omega

theorem last_not_ws_of_trimmed {c : Char} {l : Str} (h : jsTrim (l ++ [c]) = l ++ [c]) :
    isJsWs c = false := by
  by_contra hc
  have hc' : isJsWs c = true := by
    cases hws : isJsWs c
    · exact absurd hws hc
    · rfl
  have h1 := trimR_eq_of_jsTrim_eq h
  rw [trimR_append_ws hc'] at h1
  have := length_trimR_le l
  have : (trimR l).length = l.length + 1 := by rw [h1]; simp
  omega

theorem jsTrim_eq_self_of (l : Str) (h1 : trimL l = l) (h2 : trimR l = l) :
    jsTrim l = l := by rw [jsTrim, h1, h2]

theorem trimL_head {l : Str} {d : Char} {ds : Str} (h : trimL l = d :: ds) :
    isJsWs d = false := by
  induction l with
  | nil => simp [trimL] at h
  | cons c cs ih =>
    cases hc : isJsWs c with
    | true => rw [trimL_cons_ws hc] at h; exact ih h
    | false =>
      rw [trimL_cons_not_ws hc] at h
      injection h with h1 h2
      subst h1
      exact hc

theorem trimL_idem (l : Str) : trimL (trimL l) = trimL l := by
  cases h : trimL l with
  | nil => simp [trimL]
  | cons d ds => exact trimL_cons_not_ws (trimL_head h) ds

theorem trimR_idem (l : Str) : trimR (trimR l) = trimR l := by
  unfold trimR
  rw [List.reverse_reverse, trimL_idem]

theorem trimL_fix_head {d : Char} {t : Str} (h : trimL (d :: t) = d :: t) :
    isJsWs d = false := by
  cases hws : isJsWs d with
  | false => rfl
  | true =>
    rw [trimL_cons_ws hws] at h
    have h1 := length_trimL_le t
    have h2 : (trimL t).length = t.length + 1 := by rw [h]; rfl
    omega

theorem trimR_cons_shape (d : Char) (t : Str) :
    trimR (d :: t) = [] ∨ ∃ u, trimR (d :: t) = d :: u := by
  induction t using List.reverseRecOn with
  | nil =>
    cases hws : isJsWs d with
    | true => left; simp [trimR, trimL_cons_ws hws, trimL, hws]
    | false => right; exact ⟨[], by simp [trimR, trimL_cons_not_ws hws]⟩
  | append_singleton s c ih =>
    cases hws : isJsWs c with
    | true =>
      rw [show d :: (s ++ [c]) = (d :: s) ++ [c] from rfl, trimR_append_ws hws]
      exact ih
    | false =>
      right
      rw [show d :: (s ++ [c]) = (d :: s) ++ [c] from rfl, trimR_append_not_ws hws]
      exact ⟨s ++ [c], rfl⟩

theorem jsTrim_idem (l : Str) : jsTrim (jsTrim l) = jsTrim l := by
  show trimR (trimL (trimR (trimL l))) = trimR (trimL l)
  have hYL : trimL (trimL l) = trimL l := trimL_idem l
  have h1 : trimL (trimR (trimL l)) = trimR (trimL l) := by
    cases hys : trimL l with
    | nil => simp [trimR, trimL]
    | cons d t =>
      rcases trimR_cons_shape d t with h | ⟨u, h⟩
      · rw [h]; rfl
      · rw [h]
        have hd : isJsWs d = false := by
          apply trimL_fix_head
          rw [← hys]
          exact hYL
        exact trimL_cons_not_ws hd u
  rw [h1, trimR_idem]

theorem eq_nl_of_isNL {c : Char} (h : isNL c = true) : c = '\n' := by
  have h10 : c.toNat = 10 := by simpa [isNL] using h
  have : c.val = ('\n').val := by
    apply UInt32.ext
    simpa using h10
  exact Char.ext this

theorem splitLines_exists_cons (x : Str) : ∃ l ls, splitLines x = l :: ls := by
  cases h : splitLines x with
  | nil => exact absurd h (splitLines_ne_nil x)
  | cons a b => exact ⟨a, b, rfl⟩

theorem splitLines_append_nl (t w : Str) :
    splitLines (t ++ '\n' :: w) = splitLines t ++ splitLines w := by
  induction t with
  | nil =>
    simp only [List.nil_append]
    rw [splitLines_cons_nl (by decide)]
    rfl
  | cons c t ih =>
    cases hc : isNL c with
    | true =>
      rw [List.cons_append, splitLines_cons_nl hc, splitLines_cons_nl hc, ih]
      rfl
    | false =>
      obtain ⟨l, ls, hx⟩ := splitLines_exists_cons (t ++ '\n' :: w)
      obtain ⟨l', ls', hx'⟩ := splitLines_exists_cons t
      rw [List.cons_append, splitLines_cons_not_nl hc hx, splitLines_cons_not_nl hc hx']
      rw [hx, hx', List.cons_append] at ih
      injection ih with h1 h2
      subst h1
      subst h2
      rfl

theorem splitLines_noNL {a : Str} (h : ∀ c ∈ a, isNL c = false) : splitLines a = [a] := by
  induction a with
  | nil => rfl
  | cons c t ih =>
    have hc : isNL c = false := h c (by simp)
    have ht : splitLines t = [t] := ih (fun d hd => h d (by simp [hd]))
    rw [splitLines_cons_not_nl hc ht]

theorem splitLines_snoc_not_nl {c : Char} (h : isNL c = false) (x : Str) :
    splitLines (x ++ [c]) = appendToLast (splitLines x) c := by
  induction x with
  | nil =>
    simp only [List.nil_append]
    rw [show splitLines [c] = if isNL c then [[], []] else [[c]] from by
      rw [splitLines]; split <;> rfl]
    simp [h, appendToLast, splitLines]
  | cons a x ih =>
    cases ha : isNL a with
    | true =>
      rw [List.cons_append, splitLines_cons_nl ha, splitLines_cons_nl ha, ih]
      obtain ⟨l, ls, hx⟩ := splitLines_exists_cons x
      rw [hx]
      rfl
    | false =>
      obtain ⟨l', ls', hx⟩ := splitLines_exists_cons x
      cases ls' with
      | nil =>
        have ih2 : splitLines (x ++ [c]) = [l' ++ [c]] := by rw [ih, hx]; rfl
        rw [List.cons_append, splitLines_cons_not_nl ha ih2,
          splitLines_cons_not_nl ha hx]
        rfl
      | cons m ms =>
        have ih2 : splitLines (x ++ [c]) = l' :: appendToLast (m :: ms) c := by
          rw [ih, hx]; rfl
        rw [List.cons_append, splitLines_cons_not_nl ha ih2,
          splitLines_cons_not_nl ha hx]
        rfl

theorem mem_of_mem_splitLines {x : Str} {l : Str}
    (hl : l ∈ splitLines x) : ∀ c ∈ l, c ∈ x := by
  induction x generalizing l with
  | nil =>
    simp only [splitLines, List.mem_singleton] at hl
    subst hl
    simp
  | cons a t ih =>
    cases ha : isNL a with
    | true =>
      rw [splitLines_cons_nl ha] at hl
      rcases List.mem_cons.mp hl with h | h
      · subst h; simp
      · exact fun c hc => List.mem_cons_of_mem a (ih h c hc)
    | false =>
      obtain ⟨l', ls', hx⟩ := splitLines_exists_cons t
      rw [splitLines_cons_not_nl ha hx] at hl
      rcases List.mem_cons.mp hl with h | h
      · subst h
        intro c hc
        rcases List.mem_cons.mp hc with h' | h'
        · subst h'; exact List.mem_cons_self _ _
        · exact List.mem_cons_of_mem a
            (ih (by rw [hx]; exact List.mem_cons_self _ _) c h')
      · exact fun c hc => List.mem_cons_of_mem a (ih (by rw [hx]; exact List.mem_cons_of_mem _ h) c hc)

theorem noNL_of_mem_splitLines {x : Str} {l : Str}
    (hl : l ∈ splitLines x) : ∀ c ∈ l, isNL c = false := by
  induction x generalizing l with
  | nil =>
    simp only [splitLines, List.mem_singleton] at hl
    subst hl
    simp
  | cons a t ih =>
    cases ha : isNL a with
    | true =>
      rw [splitLines_cons_nl ha] at hl
      rcases List.mem_cons.mp hl with h | h
      · subst h; simp
      · exact ih h
    | false =>
      obtain ⟨l', ls', hx⟩ := splitLines_exists_cons t
      rw [splitLines_cons_not_nl ha hx] at hl
      rcases List.mem_cons.mp hl with h | h
      · subst h
        intro c hc
        rcases List.mem_cons.mp hc with h' | h'
        · subst h'; exact ha
        · exact ih (by rw [hx]; exact List.mem_cons_self _ _) c h'
      · exact ih (by rw [hx]; exact List.mem_cons_of_mem _ h)

theorem joinLines_splitLines (x : Str) : joinLines (splitLines x) = x := by
  induction x with
  | nil => rfl
  | cons a t ih =>
    cases ha : isNL a with
    | true =>
      rw [splitLines_cons_nl ha]
      obtain ⟨l, ls, hx⟩ := splitLines_exists_cons t
      rw [hx]
      rw [hx] at ih
      show tailJoin (l :: ls) = a :: t
      rw [eq_nl_of_isNL ha]
      show '\n' :: joinLines (l :: ls) = '\n' :: t
      rw [ih]
    | false =>
      obtain ⟨l, ls, hx⟩ := splitLines_exists_cons t
      rw [splitLines_cons_not_nl ha hx]
      rw [hx] at ih
      show (a :: l) ++ tailJoin ls = a :: t
      rw [List.cons_append]
      show a :: joinLines (l :: ls) = a :: t
      rw [ih]

theorem splitLines_joinLines {ls : List Str} (h : ls ≠ [])
    (hn : ∀ l ∈ ls, ∀ c ∈ l, isNL c = false) : splitLines (joinLines ls) = ls := by
  induction ls with
  | nil => exact absurd rfl h
  | cons l ls ih =>
    cases ls with
    | nil =>
      show splitLines (l ++ tailJoin []) = [l]
      rw [show tailJoin [] = [] from rfl, List.append_nil]
      exact splitLines_noNL (hn l (by simp))
    | cons m ms =>
      show splitLines (l ++ '\n' :: (m ++ tailJoin ms)) = l :: m :: ms
      rw [splitLines_append_nl, splitLines_noNL (hn l (by simp))]
      have := ih (by simp) (fun a ha => hn a (List.mem_cons_of_mem _ ha))
      rw [show joinLines (m :: ms) = m ++ tailJoin ms from rfl] at this
      rw [this]
      rfl

theorem tailJoin_snoc (ls : List Str) (l : Str) :
    tailJoin (ls ++ [l]) = tailJoin ls ++ '\n' :: l := by
  induction ls with
  | nil => simp [tailJoin]
  | cons m ms ih =>
    show ('\n' :: m) ++ tailJoin (ms ++ [l]) = (('\n' :: m) ++ tailJoin ms) ++ '\n' :: l
    rw [ih, List.append_assoc]

theorem joinLines_snoc {ls : List Str} (h : ls ≠ []) (l : Str) :
    joinLines (ls ++ [l]) = joinLines ls ++ '\n' :: l := by
  cases ls with
  | nil => exact absurd rfl h
  | cons m ms =>
    show m ++ tailJoin (ms ++ [l]) = (m ++ tailJoin ms) ++ '\n' :: l
    rw [tailJoin_snoc, List.append_assoc]

/-! ## Parser-loop invariance under the outer trim -/

theorem parseStepT_nil (st : PState) : parseStepT st [] = st := by
  unfold parseStepT
  rw [show matchNumLine [] = none from rfl]
  cases hcur : st.cur <;> simp

theorem parseStep_nil (st : PState) : parseStep st [] = st := parseStepT_nil st

theorem parseStep_blank {line : Str} (h : jsTrim line = []) (st : PState) :
    parseStep st line = st := by
  unfold parseStep
  rw [h]
  exact parseStepT_nil st

theorem jsTrim_singleton_ws {c : Char} (hw : isJsWs c = true) : jsTrim [c] = [] := by
  rw [jsTrim, trimL_cons_ws hw]
  rfl

theorem foldl_parseStep_appendToLast {c : Char} (hw : isJsWs c = true) (lines : List Str) :
    ∀ st : PState,
      List.foldl parseStep st (appendToLast lines c) = List.foldl parseStep st lines := by
  induction lines with
  | nil =>
    intro st
    show List.foldl parseStep st [[c]] = st
    simp only [List.foldl_cons, List.foldl_nil]
    exact parseStep_blank (jsTrim_singleton_ws hw) st
  | cons l ls ih =>
    intro st
    cases ls with
    | nil =>
      show List.foldl parseStep st [l ++ [c]] = List.foldl parseStep st [l]
      simp only [List.foldl_cons, List.foldl_nil]
      unfold parseStep
      rw [jsTrim_append_ws hw]
    | cons m ms =>
      show List.foldl parseStep st (l :: appendToLast (m :: ms) c) =
        List.foldl parseStep st (l :: m :: ms)
      simp only [List.foldl_cons]
      exact ih (parseStep st l)

theorem foldl_parseStep_trimL (x : Str) :
    ∀ st : PState, List.foldl parseStep st (splitLines (trimL x)) =
      List.foldl parseStep st (splitLines x) := by
  induction x with
  | nil => intro st; rfl
  | cons c y ih =>
    intro st
    cases hw : isJsWs c with
    | false => rw [trimL_cons_not_ws hw]
    | true =>
      rw [trimL_cons_ws hw]
      cases hnl : isNL c with
      | true =>
        rw [splitLines_cons_nl hnl, List.foldl_cons, parseStep_nil]
        exact ih st
      | false =>
        obtain ⟨l, ls, hx⟩ := splitLines_exists_cons y
        rw [splitLines_cons_not_nl hnl hx, List.foldl_cons, ih st, hx, List.foldl_cons]
        congr 1
        unfold parseStep
        rw [jsTrim_cons_ws hw]

theorem foldl_parseStep_trimR (x : Str) :
    ∀ st : PState, List.foldl parseStep st (splitLines (trimR x)) =
      List.foldl parseStep st (splitLines x) := by
  induction x using List.reverseRecOn with
  | nil => intro st; rfl
  | append_singleton y c ih =>
    intro st
    cases hw : isJsWs c with
    | false => rw [trimR_append_not_ws hw]
    | true =>
      rw [trimR_append_ws hw]
      cases hnl : isNL c with
      | true =>
        rw [show y ++ [c] = y ++ '\n' :: [] from by rw [eq_nl_of_isNL hnl],
          splitLines_append_nl, List.foldl_append, ih st]
        show _ = List.foldl parseStep _ [[]]
        simp only [List.foldl_cons, List.foldl_nil]
        rw [parseStep_nil]
      | false =>
        rw [splitLines_snoc_not_nl hnl, foldl_parseStep_appendToLast hw, ih st]

theorem parseLinesRaw_trim (x : Str) :
    parseLinesRaw (splitLines (jsTrim x)) = parseLinesRaw (splitLines x) := by
  unfold parseLinesRaw
  rw [show jsTrim x = trimR (trimL x) from rfl, foldl_parseStep_trimR, foldl_parseStep_trimL]

theorem parseCustomPromptsRaw_eq_lines (x : Str) :
    parseCustomPromptsRaw x = parseLinesRaw (splitLines x) := parseLinesRaw_trim x

theorem parseLinesRaw_all_nomatch {lines : List Str}
    (h : ∀ l ∈ lines, matchNumLine (jsTrim l) = none) : parseLinesRaw lines = [] := by
  suffices hfold : lines.foldl parseStep ⟨[], none⟩ = ⟨[], none⟩ by
    unfold parseLinesRaw
    rw [hfold]
    rfl
  induction lines with
  | nil => rfl
  | cons l ls ih =>
    rw [List.foldl_cons]
    have hstep : parseStep ⟨[], none⟩ l = ⟨[], none⟩ := by
      unfold parseStep parseStepT
      rw [h l (by simp)]
    rw [hstep]
    exact ih (fun l' hl' => h l' (by simp [hl']))

/-! ## Code parser vs the reference state machine -/

theorem parseStepT_match {t : Str} {n : Nat} {cap : Str}
    (hm : matchNumLine t = some (n, cap)) (st : PState) :
    parseStepT st t = ⟨st.acc ++ flushCur st.cur, some ⟨n, jsTrim cap⟩⟩ := by
  unfold parseStepT
  rw [hm]

theorem parseStepT_nomatch_none {t : Str} (hm : matchNumLine t = none) (acc : List Prompt) :
    parseStepT ⟨acc, none⟩ t = ⟨acc, none⟩ := by
  unfold parseStepT
  rw [hm]

theorem parseStepT_nomatch_blank {t : Str} (hm : matchNumLine t = none)
    (he : t.isEmpty = true) (acc : List Prompt) (p : Prompt) :
    parseStepT ⟨acc, some p⟩ t = ⟨acc, some p⟩ := by
  unfold parseStepT
  rw [hm]
  simp [he]

theorem parseStepT_nomatch_cont {t : Str} (hm : matchNumLine t = none)
    (he : t.isEmpty = false) (acc : List Prompt) (p : Prompt) :
    parseStepT ⟨acc, some p⟩ t = ⟨acc, some ⟨p.id, p.text ++ '\n' :: t⟩⟩ := by
  unfold parseStepT
  rw [hm]
  simp [he]

theorem joinLines_singleton (t : Str) : joinLines [t] = t := by
  simp [joinLines, tailJoin]

theorem machine_sim_step (line : Str) (acc : List Prompt) (cur : Option Prompt)
    (ms : MachineState) (h : RelPM cur ms) :
    ∃ acc₂ cur₂ ms₂, parseStep ⟨acc, cur⟩ line = ⟨acc₂, cur₂⟩ ∧
      machineStepTrim (acc, ms) line = (acc₂, ms₂) ∧ RelPM cur₂ ms₂ := by
  cases hm : matchNumLine (jsTrim line) with
  | some nc =>
    obtain ⟨n, cap⟩ := nc
    cases cur with
    | none =>
      cases ms with
      | building i ls => simp [RelPM] at h
      | noActive =>
        refine ⟨acc, some ⟨n, jsTrim cap⟩, .building n [jsTrim cap], ?_, ?_, ?_⟩
        · show parseStepT ⟨acc, none⟩ (jsTrim line) = _
          rw [parseStepT_match hm]
          simp [flushCur]
        · simp [machineStepTrim, hm]
        · exact ⟨rfl, (joinLines_singleton _).symm, by simp⟩
    | some p =>
      cases ms with
      | noActive => simp [RelPM] at h
      | building i ls =>
        obtain ⟨hid, htext, hne⟩ := h
        refine ⟨acc ++ [⟨p.id, jsTrim p.text⟩], some ⟨n, jsTrim cap⟩,
          .building n [jsTrim cap], ?_, ?_, ?_⟩
        · show parseStepT ⟨acc, some p⟩ (jsTrim line) = _
          rw [parseStepT_match hm]
          rfl
        · simp only [machineStepTrim, hm]
          rw [show finishPrompt i ls = ⟨p.id, jsTrim p.text⟩ from by
            rw [finishPrompt, hid, htext]]
        · exact ⟨rfl, (joinLines_singleton _).symm, by simp⟩
  | none =>
    cases cur with
    | none =>
      cases ms with
      | building i ls => simp [RelPM] at h
      | noActive =>
        refine ⟨acc, none, .noActive, ?_, ?_, trivial⟩
        · exact parseStepT_nomatch_none hm acc
        · simp [machineStepTrim, hm]
    | some p =>
      cases ms with
      | noActive => simp [RelPM] at h
      | building i ls =>
        obtain ⟨hid, htext, hne⟩ := h
        cases he : (jsTrim line).isEmpty with
        | true =>
          refine ⟨acc, some p, .building i ls, ?_, ?_, ⟨hid, htext, hne⟩⟩
          · exact parseStepT_nomatch_blank hm he acc p
          · simp [machineStepTrim, hm, he]
        | false =>
          refine ⟨acc, some ⟨p.id, p.text ++ '\n' :: jsTrim line⟩,
            .building i (ls ++ [jsTrim line]), ?_, ?_, ?_⟩
          · exact parseStepT_nomatch_cont hm he acc p
          · simp [machineStepTrim, hm, he]
          · refine ⟨hid, ?_, by simp⟩
            rw [joinLines_snoc hne, htext]
  
theorem machine_sim (lines : List Str) :
    ∀ (acc : List Prompt) (cur : Option Prompt) (ms : MachineState), RelPM cur ms →
      (List.foldl parseStep ⟨acc, cur⟩ lines).acc =
        (List.foldl machineStepTrim (acc, ms) lines).1 ∧
      RelPM (List.foldl parseStep ⟨acc, cur⟩ lines).cur
        (List.foldl machineStepTrim (acc, ms) lines).2 := by
  induction lines with
  | nil => exact fun acc cur ms h => ⟨rfl, h⟩
  | cons line ls ih =>
    intro acc cur ms h
    obtain ⟨acc₂, cur₂, ms₂, h1, h2, h3⟩ := machine_sim_step line acc cur ms h
    simp only [List.foldl_cons, h1, h2]
    exact ih acc₂ cur₂ ms₂ h3

theorem flush_eq_of_rel {cur : Option Prompt} {ms : MachineState} (h : RelPM cur ms) :
    flushCur cur = finishMachine ms := by
  cases cur with
  | none =>
    cases ms with
    | noActive => rfl
    | building i ls => simp [RelPM] at h
  | some p =>
    cases ms with
    | noActive => simp [RelPM] at h
    | building i ls =>
      obtain ⟨hid, htext, hne⟩ := h
      show [(⟨p.id, jsTrim p.text⟩ : Prompt)] = [finishPrompt i ls]
      rw [finishPrompt, hid, htext]

/-- C3 counterexample: on `"1. A\n 2. B"` the code parser trims each line
before matching and yields two prompts, while the claim's reference
machine — which matches the raw line against `^(\d+)\.\s*(.*)$` — treats
`" 2. B"` as a continuation and yields a single prompt. -/
theorem c3_counterexample :
    parseCustomPrompts ("1. A\n 2. B".data) ≠ specMachineParseRaw ("1. A\n 2. B".data) := by
  decide

/-- C3 amended: the custom-prompt parser behaves as the reference state
machine amended with per-line trimming — each line is first stripped of
leading/trailing whitespace; a stripped line matching `^(\d+)\.\s*(.*)$`
starts a new prompt with the matched number as id; other non-blank
stripped lines are appended (with a newline) as continuations; blank
lines and lines before the first numbered line are discarded;
leading/trailing whitespace on every body is stripped; the output is
ordered by ascending numeric id. -/
theorem c3_amended_parser_refines_machine (x : Str) :
    parseCustomPrompts x = specMachineParseTrim x := by
  unfold parseCustomPrompts specMachineParseTrim
  rw [parseCustomPromptsRaw_eq_lines]
  congr 1
  obtain ⟨h1, h2⟩ := machine_sim (splitLines x) [] none .noActive trivial
  show (List.foldl parseStep ⟨[], none⟩ (splitLines x)).acc ++
      flushCur (List.foldl parseStep ⟨[], none⟩ (splitLines x)).cur = _
  rw [h1, flush_eq_of_rel h2]

/-! ## C4: abort on inputs with no numbered line -/

/-- C4 counterexample, in three parts, each at a concrete input whose
lines all fail `^(\d+)\.\s*(.*)$` as stated (raw, untrimmed).
First, with custom input `" 1. A"` the run does not abort at all: the
code trims the line before matching, parses one prompt, reaches `Done`
and calls the primary provider — forcing the stripped-line reading of
the pattern.  Second, with a reference image whose analysis fails, the
run aborts with the style-analysis error, not an input-validation error
— forcing the style-stage-succeeds hypothesis.  Third, with a reference
image whose analysis succeeds, the run does abort with the validation
error, but a provider call (the style analysis) has already been made —
forcing the restriction to image-provider calls. -/
theorem c4_counterexample :
    ((∀ l ∈ splitLines envLeadingSpace.customPrompts, matchNumLine l = none) ∧
      (handleGenerate envLeadingSpace).appState = AppState.DONE ∧
      (handleGenerate envLeadingSpace).primaryCalls ≠ []) ∧
    ((∀ l ∈ splitLines envStyleFail.customPrompts, matchNumLine l = none) ∧
      (handleGenerate envStyleFail).appState = AppState.IDLE ∧
      (handleGenerate envStyleFail).error =
        some ("Failed to analyze the reference image style.".data) ∧
      (handleGenerate envStyleFail).error ≠ some customEmptyMsg ∧
      (handleGenerate envStyleFail).error ≠ some noValidMsg) ∧
    ((∀ l ∈ splitLines envStyleOk.customPrompts, matchNumLine l = none) ∧
      (handleGenerate envStyleOk).appState = AppState.IDLE ∧
      (handleGenerate envStyleOk).error = some noValidMsg ∧
      (handleGenerate envStyleOk).analyzeCalls ≠ 0) := by
  decide

/-- C4 amended: in custom-prompt mode, when the style stage succeeds and
no line of the input matches the numbered-prompt pattern after stripping
its leading/trailing whitespace, the run aborts with an input-validation
error naming the problem (empty field, or no valid numbered prompts),
the state returns to Idle, and no image-provider calls are made. -/
theorem c4_amended_abort_no_numbered (env : Env)
    (hsrc : env.promptSource = .custom)
    (hstyle : env.referenceImage = none ∨ ∃ s, env.analyzeResult = Except.ok s)
    (hnone : ∀ l ∈ splitLines env.customPrompts, matchNumLine (jsTrim l) = none) :
    (handleGenerate env).appState = AppState.IDLE ∧
    ((handleGenerate env).error = some customEmptyMsg ∨
      (handleGenerate env).error = some noValidMsg) ∧
    (handleGenerate env).primaryCalls = [] ∧
    (handleGenerate env).secondaryCalls = [] := by
  have hparse : parseCustomPrompts env.customPrompts = [] := by
    unfold parseCustomPrompts
    rw [parseCustomPromptsRaw_eq_lines, parseLinesRaw_all_nomatch hnone]
    rfl
  have hacq : acquirePrompts env = .error customEmptyMsg ∨
      acquirePrompts env = .error noValidMsg := by
    unfold acquirePrompts
    rw [hsrc]
    cases hemp : (jsTrim env.customPrompts).isEmpty with
    | true => left; simp [hemp]
    | false => right; simp [hemp, hparse]
  have hres : ∃ s, resolveStyle env.referenceImage env.analyzeResult env.imageStyle
      = .ok s := by
    unfold resolveStyle
    cases href : env.referenceImage with
    | none => exact ⟨env.imageStyle, rfl⟩
    | some u =>
      rcases hstyle with h | ⟨s, h⟩
      · rw [href] at h; cases h
      · rw [h]; exact ⟨s ++ ", ".data ++ env.imageStyle, rfl⟩
  obtain ⟨s, hres⟩ := hres
  unfold handleGenerate
  rw [hres]
  rcases hacq with h | h <;> rw [h] <;> simp [idleOutcome]

/-- Witness for the amended C4 on a concrete numbered-line-free input. -/
theorem c4_amended_abort_no_numbered_witness :
    (handleGenerate envNoNumbered).appState = AppState.IDLE ∧
    ((handleGenerate envNoNumbered).error = some customEmptyMsg ∨
      (handleGenerate envNoNumbered).error = some noValidMsg) ∧
    (handleGenerate envNoNumbered).primaryCalls = [] ∧
    (handleGenerate envNoNumbered).secondaryCalls = [] :=
  c4_amended_abort_no_numbered envNoNumbered rfl (Or.inl rfl) (by decide)

/-! ## Stable sort lemmas -/

theorem insertByIdx_perm (p : Prompt) (l : List Prompt) :
    List.Perm (insertByIdx p l) (p :: l) := by
  induction l with
  | nil => exact List.Perm.refl _
  | cons q qs ih =>
    rw [insertByIdx]
    by_cases hlt : p.id < q.id
    · rw [if_pos hlt]
    · rw [if_neg hlt]
      exact (List.Perm.cons q ih).trans (List.Perm.swap p q qs)

theorem sortByIdx_perm_aux (ps : List Prompt) :
    ∀ acc : List Prompt,
      List.Perm (ps.foldl (fun acc p => insertByIdx p acc) acc) (acc ++ ps) := by
  induction ps with
  | nil => intro acc; simp
  | cons p ps ih =>
    intro acc
    rw [List.foldl_cons]
    refine (ih (insertByIdx p acc)).trans ?_
    refine (List.Perm.append_right ps (insertByIdx_perm p acc)).trans ?_
    rw [List.cons_append]
    exact List.perm_middle.symm

theorem sortByIdx_perm (ps : List Prompt) : List.Perm (sortByIdx ps) ps := by
  simpa using sortByIdx_perm_aux ps []

theorem insertByIdx_pairwise {l : List Prompt} (p : Prompt)
    (h : List.Pairwise (fun a b => a.id ≤ b.id) l) :
    List.Pairwise (fun a b => a.id ≤ b.id) (insertByIdx p l) := by
  induction l with
  | nil => simp [insertByIdx]
  | cons q qs ih =>
    rw [List.pairwise_cons] at h
    obtain ⟨hq, hqs⟩ := h
    rw [insertByIdx]
    by_cases hlt : p.id < q.id
    · rw [if_pos hlt]
      rw [List.pairwise_cons]
      refine ⟨?_, List.pairwise_cons.mpr ⟨hq, hqs⟩⟩
      intro r hr
      rcases List.mem_cons.mp hr with h | h
      · subst h; omega
      · have := hq r h; omega
    · rw [if_neg hlt]
      rw [List.pairwise_cons]
      refine ⟨?_, ih hqs⟩
      intro r hr
      rcases List.mem_cons.mp ((insertByIdx_perm p qs).mem_iff.mp hr) with h | h
      · subst h; omega
      · exact hq r h

theorem sortByIdx_pairwise (ps : List Prompt) :
    List.Pairwise (fun a b => a.id ≤ b.id) (sortByIdx ps) := by
  suffices haux : ∀ (ps acc : List Prompt), List.Pairwise (fun a b => a.id ≤ b.id) acc →
      List.Pairwise (fun a b => a.id ≤ b.id)
        (ps.foldl (fun acc p => insertByIdx p acc) acc) by
    exact haux ps [] (by simp)
  intro ps
  induction ps with
  | nil => exact fun acc h => h
  | cons p ps ih =>
    intro acc hacc
    rw [List.foldl_cons]
    exact ih _ (insertByIdx_pairwise p hacc)

theorem insertByIdx_append {l : List Prompt} {p : Prompt}
    (h : ∀ q ∈ l, q.id ≤ p.id) : insertByIdx p l = l ++ [p] := by
  induction l with
  | nil => rfl
  | cons q qs ih =>
    rw [insertByIdx]
    have hq := h q (by simp)
    rw [if_neg (by omega)]
    rw [ih (fun r hr => h r (by simp [hr]))]
    rfl

theorem sortByIdx_eq_self {ps : List Prompt}
    (h : List.Pairwise (fun a b => a.id ≤ b.id) ps) : sortByIdx ps = ps := by
  suffices haux : ∀ (ps acc : List Prompt),
      List.Pairwise (fun a b => a.id ≤ b.id) (acc ++ ps) →
      ps.foldl (fun acc p => insertByIdx p acc) acc = acc ++ ps by
    simpa using haux ps [] (by simpa using h)
  intro ps
  induction ps with
  | nil => intro acc _; simp
  | cons p ps ih =>
    intro acc hacc
    rw [List.foldl_cons]
    have hall : ∀ q ∈ acc, q.id ≤ p.id := by
      intro q hq
      have := (List.pairwise_append.mp hacc).2.2 q hq p (by simp)
      exact this
    rw [insertByIdx_append hall]
    rw [ih (acc ++ [p]) (by simpa using hacc)]
    simp

/-! ## Decimal digit round trip -/

theorem toNat_digitChar {d : Nat} (h : d < 10) : (Char.ofNat (48 + d)).toNat = 48 + d := by
  interval_cases d <;> decide

theorem isDigitChar_digitChar {d : Nat} (h : d < 10) :
    isDigitChar (Char.ofNat (48 + d)) = true := by
  interval_cases d <;> decide

theorem natDigitsAux_digits : ∀ (fuel n : Nat), ∀ c ∈ natDigitsAux fuel n,
    isDigitChar c = true := by
  intro fuel
  induction fuel with
  | zero => intro n c hc; simp [natDigitsAux] at hc
  | succ fuel ih =>
    intro n c hc
    cases n with
    | zero => simp [natDigitsAux] at hc
    | succ m =>
      rw [natDigitsAux] at hc
      rcases List.mem_append.mp hc with h | h
      · exact ih _ c h
      · rw [List.mem_singleton] at h
        subst h
        exact isDigitChar_digitChar (Nat.mod_lt _ (by omega))

theorem natDigits_digits (n : Nat) : ∀ c ∈ natDigits n, isDigitChar c = true := by
  unfold natDigits
  by_cases h : n = 0
  · rw [if_pos h]; intro c hc; rw [List.mem_singleton] at hc; subst hc; decide
  · rw [if_neg h]; exact natDigitsAux_digits (n + 1) n

theorem natDigits_ne_nil (n : Nat) : natDigits n ≠ [] := by
  unfold natDigits
  by_cases h : n = 0
  · rw [if_pos h]; simp
  · rw [if_neg h]
    cases n with
    | zero => exact absurd rfl h
    | succ m =>
      rw [natDigitsAux]
      simp

theorem digitsToNat_snoc (xs : Str) (c : Char) :
    digitsToNat (xs ++ [c]) = 10 * digitsToNat xs + (c.toNat - 48) := by
  simp [digitsToNat, List.foldl_append]

theorem digitsToNat_natDigitsAux : ∀ (fuel n : Nat), n < fuel →
    digitsToNat (natDigitsAux fuel n) = n := by
  intro fuel
  induction fuel with
  | zero => intro n h; omega
  | succ fuel ih =>
    intro n h
    cases n with
    | zero => rfl
    | succ m =>
      rw [natDigitsAux, digitsToNat_snoc,
        ih ((m + 1) / 10) (by
          have := Nat.div_lt_self (Nat.succ_pos m) (show 1 < 10 by omega)
          omega),
        toNat_digitChar (Nat.mod_lt _ (show 0 < 10 by omega))]
      have := Nat.div_add_mod (m + 1) 10
      omega

theorem digitsToNat_natDigits (n : Nat) : digitsToNat (natDigits n) = n := by
  unfold natDigits
  by_cases h : n = 0
  · rw [if_pos h, h]; decide
  · rw [if_neg h]
    exact digitsToNat_natDigitsAux (n + 1) n (by omega)

theorem digit_not_ws {c : Char} (h : isDigitChar c = true) : isJsWs c = false := by
  simp only [isDigitChar, Bool.and_eq_true, decide_eq_true_eq] at h
  simp only [isJsWs, Bool.or_eq_false_iff, Bool.and_eq_false_iff, decide_eq_false_iff_not,
    decide_eq_true_eq]
  omega

theorem digit_not_nl {c : Char} (h : isDigitChar c = true) : isNL c = false := by
  simp only [isDigitChar, Bool.and_eq_true, decide_eq_true_eq] at h
  simp only [isNL, decide_eq_false_iff_not]
  omega

theorem digit_not_dot {c : Char} (h : isDigitChar c = true) : (c.toNat = 46) = False := by
  simp only [isDigitChar, Bool.and_eq_true, decide_eq_true_eq] at h
  simp only [eq_iff_iff, iff_false]
  omega

/-! ## The numbered-line match on rendered lines -/

theorem mem_of_mem_jsTrim {l : Str} {c : Char} (h : c ∈ jsTrim l) : c ∈ l := by
  unfold jsTrim trimR trimL at h
  rw [List.mem_reverse] at h
  have h1 := (List.dropWhile_sublist isJsWs).subset h
  rw [List.mem_reverse] at h1
  exact (List.dropWhile_sublist isJsWs).subset h1

theorem matchNumLine_some_elim {t : Str} {n : Nat} {cap : Str}
    (hm : matchNumLine t = some (n, cap)) :
    (∀ c ∈ cap, isHardTerm c = false) ∧ (∀ c ∈ cap, isNL c = false) := by
  simp only [matchNumLine] at hm
  split at hm
  · exact absurd hm (by simp)
  · split at hm
    · split at hm
      · split at hm
        · exact absurd hm (by simp)
        · rename_i c r hdrop hdot hterm
          have hterm' : (r.dropWhile isJsWs).any isLineTerm = false := by
            simpa using hterm
          have hcap : cap = r.dropWhile isJsWs :=
            (congrArg Prod.snd (Option.some.inj hm)).symm
          subst hcap
          have hall : ∀ d ∈ r.dropWhile isJsWs, isLineTerm d = false := by
            intro d hd
            have := List.any_eq_false.mp hterm' d hd
            simpa using this
          constructor
          · intro d hd
            have := hall d hd
            simp only [isLineTerm, Bool.or_eq_false_iff] at this
            exact this.2
          · intro d hd
            have := hall d hd
            simp only [isLineTerm, Bool.or_eq_false_iff] at this
            exact this.1
      · exact absurd hm (by simp)
    · exact absurd hm (by simp)

theorem takeWhile_digit_append {ds : Str} (h : ∀ c ∈ ds, isDigitChar c = true) (r : Str) :
    (ds ++ r).takeWhile isDigitChar = ds ++ r.takeWhile isDigitChar ∧
    (ds ++ r).dropWhile isDigitChar = r.dropWhile isDigitChar := by
  induction ds with
  | nil => simp
  | cons d ds ih =>
    have hd := h d (by simp)
    obtain ⟨h1, h2⟩ := ih (fun c hc => h c (by simp [hc]))
    constructor
    · rw [List.cons_append, List.takeWhile_cons, if_pos hd, h1, List.cons_append]
    · rw [List.cons_append, List.dropWhile_cons, if_pos hd, h2]

theorem matchNumLine_digits_dot (n : Nat) :
    matchNumLine (natDigits n ++ ['.']) = some (n, []) := by
  have ht := (takeWhile_digit_append (natDigits_digits n) ['.']).1
  have hd := (takeWhile_digit_append (natDigits_digits n) ['.']).2
  rw [show (['.'] : Str).takeWhile isDigitChar = [] from by decide] at ht
  rw [show (['.'] : Str).dropWhile isDigitChar = ['.'] from by decide] at hd
  rw [List.append_nil] at ht
  simp only [matchNumLine, ht, hd]
  rw [if_neg (by simp [natDigits_ne_nil n])]
  rw [if_pos (by decide)]
  rw [if_neg (by decide)]
  rw [digitsToNat_natDigits]
  rfl

theorem matchNumLine_idline (n : Nat) {first : Str} (hne : first ≠ [])
    (htrim : jsTrim first = first)
    (hhard : ∀ c ∈ first, isHardTerm c = false)
    (hnl : ∀ c ∈ first, isNL c = false) :
    matchNumLine (natDigits n ++ '.' :: ' ' :: first) = some (n, first) := by
  have ht := (takeWhile_digit_append (natDigits_digits n) ('.' :: ' ' :: first)).1
  have hd := (takeWhile_digit_append (natDigits_digits n) ('.' :: ' ' :: first)).2
  rw [show ('.' :: ' ' :: first).takeWhile isDigitChar = [] from by
    rw [List.takeWhile_cons, if_neg (by decide)]] at ht
  rw [show ('.' :: ' ' :: first).dropWhile isDigitChar = '.' :: ' ' :: first from by
    rw [List.dropWhile_cons, if_neg (by decide)]] at hd
  rw [List.append_nil] at ht
  have hcap : (' ' :: first).dropWhile isJsWs = first := by
    rw [List.dropWhile_cons, if_pos (by decide)]
    cases first with
    | nil => exact absurd rfl hne
    | cons f0 fs =>
      rw [List.dropWhile_cons, if_neg]
      have hf0 := trimL_fix_head (trimL_eq_of_jsTrim_eq htrim)
      simp [hf0]
  have hany : first.any isLineTerm = false := by
    apply List.any_eq_false.mpr
    intro d hd2
    simp only [isLineTerm, Bool.or_eq_true, not_or]
    constructor
    · simp [hnl d hd2]
    · simp [hhard d hd2]
  simp only [matchNumLine, ht, hd]
  rw [if_neg (by simp [natDigits_ne_nil n])]
  rw [if_pos (by decide)]
  rw [hcap, if_neg (by simp [hany])]
  rw [digitsToNat_natDigits]

theorem trimL_digits_append (n : Nat) (r : Str) :
    trimL (natDigits n ++ r) = natDigits n ++ r := by
  obtain ⟨d0, ds, hds⟩ : ∃ d0 ds, natDigits n = d0 :: ds := by
    cases h : natDigits n with
    | nil => exact absurd h (natDigits_ne_nil n)
    | cons a b => exact ⟨a, b, rfl⟩
  rw [hds, List.cons_append]
  exact trimL_cons_not_ws (digit_not_ws (natDigits_digits n d0 (by rw [hds]; simp)))
    (ds ++ r)

theorem jsTrim_digits_dot_space (n : Nat) :
    jsTrim (natDigits n ++ ['.', ' ']) = natDigits n ++ ['.'] := by
  rw [show (natDigits n ++ ['.', ' '] : Str) = (natDigits n ++ ['.']) ++ [' '] from by simp]
  rw [jsTrim_append_ws (by decide)]
  apply jsTrim_eq_self_of
  · exact trimL_digits_append n ['.']
  · exact trimR_append_not_ws (by decide) (natDigits n)

theorem jsTrim_idline (n : Nat) {first : Str} (hne : first ≠ [])
    (htrim : jsTrim first = first) :
    jsTrim (natDigits n ++ '.' :: ' ' :: first) = natDigits n ++ '.' :: ' ' :: first := by
  apply jsTrim_eq_self_of
  · exact trimL_digits_append n ('.' :: ' ' :: first)
  · obtain ⟨u, lc, hu⟩ : ∃ u lc, first = u ++ [lc] := by
      rcases List.eq_nil_or_concat first with h | ⟨u, lc, h⟩
      · exact absurd h hne
      · exact ⟨u, lc, by rw [h, List.concat_eq_append]⟩
    have hlc : isJsWs lc = false := last_not_ws_of_trimmed (by rw [← hu]; exact htrim)
    rw [hu, show natDigits n ++ '.' :: ' ' :: (u ++ [lc]) =
      (natDigits n ++ '.' :: ' ' :: u) ++ [lc] from by simp]
    exact trimR_append_not_ws hlc (natDigits n ++ '.' :: ' ' :: u)

/-! ## Well-formedness of parsed texts -/

theorem joinLines_good_last {ls : List Str} (hne : ls ≠ [])
    (hg : ∀ l ∈ ls, GoodLine l) :
    ∃ u c, joinLines ls = u ++ [c] ∧ isJsWs c = false := by
  induction ls with
  | nil => exact absurd rfl hne
  | cons l ms ih =>
    cases ms with
    | nil =>
      obtain ⟨htr, hlne, _⟩ := hg l (by simp)
      obtain ⟨u, lc, hu⟩ : ∃ u lc, l = u ++ [lc] := by
        rcases List.eq_nil_or_concat l with h | ⟨u, lc, h⟩
        · exact absurd h hlne
        · exact ⟨u, lc, by rw [h, List.concat_eq_append]⟩
      refine ⟨u, lc, ?_, last_not_ws_of_trimmed (by rw [← hu]; exact htr)⟩
      rw [joinLines_singleton, hu]
    | cons m mms =>
      obtain ⟨u, c, hu, hc⟩ := ih (by simp) (fun a ha => hg a (List.mem_cons_of_mem _ ha))
      refine ⟨l ++ '\n' :: u, c, ?_, hc⟩
      show l ++ tailJoin (m :: mms) = (l ++ '\n' :: u) ++ [c]
      rw [show tailJoin (m :: mms) = '\n' :: joinLines (m :: mms) from rfl, hu]
      simp

theorem jsTrim_joinLines_good {ls : List Str} (hne : ls ≠ [])
    (hg : ∀ l ∈ ls, GoodLine l) : jsTrim (joinLines ls) = joinLines ls := by
  apply jsTrim_eq_self_of
  · cases ls with
    | nil => exact absurd rfl hne
    | cons l ms =>
      obtain ⟨htr, hlne, _⟩ := hg l (by simp)
      cases l with
      | nil => exact absurd rfl hlne
      | cons d t =>
        show trimL ((d :: t) ++ tailJoin ms) = _
        rw [List.cons_append]
        exact trimL_cons_not_ws (head_not_ws_of_trimmed htr) _
  · obtain ⟨u, c, hu, hc⟩ := joinLines_good_last hne hg
    rw [hu]
    exact trimR_append_not_ws hc u

theorem jsTrim_of_wfText {t : Str} (h : WFText t) : jsTrim t = t := by
  rcases h with h | ⟨hg, _⟩
  · rw [h]; rfl
  · rw [← joinLines_splitLines t] at hg ⊢
    exact jsTrim_joinLines_good (splitLines_ne_nil t) (by
      intro l hl
      exact hg l (by rwa [splitLines_joinLines (splitLines_ne_nil t)
        (fun l' hl' => noNL_of_mem_splitLines hl')]))

theorem wfText_of_accText {t : Str} (h : AccText t) : WFText (jsTrim t) := by
  obtain ⟨m2t, conts, ht, htr, hh, hn, hc⟩ := h
  subst ht
  cases conts with
  | nil =>
    rw [joinLines_singleton, htr]
    cases hm : m2t with
    | nil => exact Or.inl rfl
    | cons d u =>
      refine Or.inr ?_
      rw [← hm, splitLines_noNL hn]
      constructor
      · intro l hl
        rw [List.mem_singleton] at hl
        subst hl
        exact ⟨htr, by rw [hm]; simp, hh⟩
      · intro l hl
        simp at hl
  | cons c1 cs =>
    have hgoods : ∀ l ∈ c1 :: cs, GoodLine l := fun l hl => (hc l hl).1
    have hnls : ∀ l ∈ c1 :: cs, ∀ c ∈ l, isNL c = false := fun l hl => (hc l hl).2.2
    cases m2t with
    | nil =>
      rw [show joinLines ([] :: c1 :: cs) = '\n' :: joinLines (c1 :: cs) from rfl]
      rw [jsTrim_cons_ws (by decide), jsTrim_joinLines_good (by simp) hgoods]
      refine Or.inr ?_
      rw [splitLines_joinLines (by simp) hnls]
      refine ⟨hgoods, ?_⟩
      intro l hl
      exact (hc l (List.mem_cons_of_mem _ (by simpa using hl))).2.1
    | cons d u =>
      have hgood0 : GoodLine (d :: u) := ⟨htr, by simp, hh⟩
      have hgall : ∀ l ∈ (d :: u) :: c1 :: cs, GoodLine l := by
        intro l hl
        rcases List.mem_cons.mp hl with h | h
        · subst h; exact hgood0
        · exact hgoods l h
      have hnall : ∀ l ∈ (d :: u) :: c1 :: cs, ∀ c ∈ l, isNL c = false := by
        intro l hl
        rcases List.mem_cons.mp hl with h | h
        · subst h; exact hn
        · exact hnls l h
      rw [jsTrim_joinLines_good (by simp) hgall]
      refine Or.inr ?_
      rw [splitLines_joinLines (by simp) hnall]
      refine ⟨hgall, ?_⟩
      intro l hl
      exact (hc l (by simpa using hl)).2.1

theorem parseStep_wf {line : Str} (hhard : ∀ c ∈ line, isHardTerm c = false)
    (hnl : ∀ c ∈ line, isNL c = false) {st : PState}
    (hacc : ∀ p ∈ st.acc, WFText p.text)
    (hcur : ∀ p, st.cur = some p → AccText p.text) :
    (∀ p ∈ (parseStep st line).acc, WFText p.text) ∧
    (∀ p, (parseStep st line).cur = some p → AccText p.text) := by
  obtain ⟨acc, cur⟩ := st
  show (∀ p ∈ (parseStepT ⟨acc, cur⟩ (jsTrim line)).acc, WFText p.text) ∧
    (∀ p, (parseStepT ⟨acc, cur⟩ (jsTrim line)).cur = some p → AccText p.text)
  cases hm : matchNumLine (jsTrim line) with
  | some nc =>
    obtain ⟨n, cap⟩ := nc
    rw [parseStepT_match hm]
    constructor
    · intro p hp
      rcases List.mem_append.mp hp with h | h
      · exact hacc p h
      · cases hcu : cur with
        | none => rw [hcu] at h; simp [flushCur] at h
        | some q =>
          rw [hcu] at h
          simp only [flushCur, List.mem_singleton] at h
          subst h
          exact wfText_of_accText (hcur q hcu)
    · intro p hp
      have hp' : p = ⟨n, jsTrim cap⟩ := (Option.some.inj hp).symm
      subst hp'
      obtain ⟨hch, hcn⟩ := matchNumLine_some_elim hm
      refine ⟨jsTrim cap, [], (joinLines_singleton _).symm, jsTrim_idem cap, ?_, ?_, by simp⟩
      · exact fun c hcm => hch c (mem_of_mem_jsTrim hcm)
      · exact fun c hcm => hcn c (mem_of_mem_jsTrim hcm)
  | none =>
    cases hcu : cur with
    | none =>
      rw [parseStepT_nomatch_none hm]
      refine ⟨hacc, ?_⟩
      intro p h
      exact absurd h (by simp)
    | some q =>
      cases hemp : (jsTrim line).isEmpty with
      | true =>
        rw [parseStepT_nomatch_blank hm hemp]
        refine ⟨hacc, ?_⟩
        intro p hp
        have hp' : p = q := (Option.some.inj hp).symm
        subst hp'
        exact hcur p (by rw [hcu])
      | false =>
        rw [parseStepT_nomatch_cont hm hemp]
        refine ⟨hacc, ?_⟩
        intro p hp
        have hp' : p = ⟨q.id, q.text ++ '\n' :: jsTrim line⟩ := (Option.some.inj hp).symm
        subst hp'
        obtain ⟨m2t, conts, hteq, htr, hhh, hnn, hcc⟩ := hcur q (by rw [hcu])
        refine ⟨m2t, conts ++ [jsTrim line], ?_, htr, hhh, hnn, ?_⟩
        · show q.text ++ '\n' :: jsTrim line = joinLines (m2t :: (conts ++ [jsTrim line]))
          rw [show m2t :: (conts ++ [jsTrim line]) = (m2t :: conts) ++ [jsTrim line] from rfl,
            joinLines_snoc (by simp), ← hteq]
        · intro l hl
          rcases List.mem_append.mp hl with h | h
          · exact hcc l h
          · rw [List.mem_singleton] at h
            subst h
            refine ⟨⟨jsTrim_idem line, ?_, ?_⟩, hm, ?_⟩
            · intro hcon
              rw [hcon] at hemp
              simp at hemp
            · exact fun c hcm => hhard c (mem_of_mem_jsTrim hcm)
            · exact fun c hcm => hnl c (mem_of_mem_jsTrim hcm)

theorem foldl_parseStep_wf (lines : List Str)
    (hlines : ∀ l ∈ lines, (∀ c ∈ l, isHardTerm c = false) ∧ (∀ c ∈ l, isNL c = false)) :
    ∀ st : PState, (∀ p ∈ st.acc, WFText p.text) →
      (∀ p, st.cur = some p → AccText p.text) →
      (∀ p ∈ (lines.foldl parseStep st).acc, WFText p.text) ∧
      (∀ p, (lines.foldl parseStep st).cur = some p → AccText p.text) := by
  induction lines with
  | nil => exact fun st h1 h2 => ⟨h1, h2⟩
  | cons line ls ih =>
    intro st h1 h2
    rw [List.foldl_cons]
    obtain ⟨hh, hn⟩ := hlines line (by simp)
    obtain ⟨h1', h2'⟩ := parseStep_wf hh hn h1 h2
    exact ih (fun l hl => hlines l (by simp [hl])) _ h1' h2'

theorem parse_raw_wf {x : Str} (hx : ∀ c ∈ x, isHardTerm c = false) :
    ∀ p ∈ parseCustomPromptsRaw x, WFText p.text := by
  rw [parseCustomPromptsRaw_eq_lines]
  have hlines : ∀ l ∈ splitLines x,
      (∀ c ∈ l, isHardTerm c = false) ∧ (∀ c ∈ l, isNL c = false) :=
    fun l hl => ⟨fun c hc => hx c (mem_of_mem_splitLines hl c hc),
      noNL_of_mem_splitLines hl⟩
  obtain ⟨hacc, hcur⟩ :=
    foldl_parseStep_wf (splitLines x) hlines ⟨[], none⟩ (by simp) (by simp)
  intro p hp
  have hp2 : p ∈ ((splitLines x).foldl parseStep ⟨[], none⟩).acc ++
      flushCur ((splitLines x).foldl parseStep ⟨[], none⟩).cur := hp
  rcases List.mem_append.mp hp2 with h | h
  · exact hacc p h
  · cases hc : ((splitLines x).foldl parseStep ⟨[], none⟩).cur with
    | none => rw [hc] at h; simp [flushCur] at h
    | some q =>
      rw [hc] at h
      simp only [flushCur, List.mem_singleton] at h
      subst h
      exact wfText_of_accText (hcur q hc)

theorem parse_wf {x : Str} (hx : ∀ c ∈ x, isHardTerm c = false) :
    ∀ p ∈ parseCustomPrompts x, WFText p.text := by
  intro p hp
  exact parse_raw_wf hx p ((sortByIdx_perm (parseCustomPromptsRaw x)).mem_iff.mp hp)

/-! ## Re-parsing the rendered reconstruction -/

theorem contFold {ls : List Str}
    (h : ∀ l ∈ ls, GoodLine l ∧ matchNumLine l = none) :
    ∀ (acc : List Prompt) (i : Nat) (t : Str),
      List.foldl parseStep ⟨acc, some ⟨i, t⟩⟩ ls = ⟨acc, some ⟨i, t ++ tailJoin ls⟩⟩ := by
  induction ls with
  | nil => intro acc i t; simp [tailJoin]
  | cons l ms ih =>
    intro acc i t
    obtain ⟨⟨htr, hne, _⟩, hnm⟩ := h l (by simp)
    rw [List.foldl_cons]
    have hstep : parseStep ⟨acc, some ⟨i, t⟩⟩ l = ⟨acc, some ⟨i, t ++ '\n' :: l⟩⟩ := by
      show parseStepT ⟨acc, some ⟨i, t⟩⟩ (jsTrim l) = _
      rw [htr, parseStepT_nomatch_cont hnm
        (by cases l with | nil => exact absurd rfl hne | cons a b => rfl)]
    rw [hstep, ih (fun a ha => h a (by simp [ha]))]
    simp [tailJoin, List.append_assoc]

theorem blockFold {p : Prompt} (h : WFText p.text) (st : PState) :
    List.foldl parseStep st (splitLines (renderBlock p)) =
      ⟨st.acc ++ flushCur st.cur, some ⟨p.id, p.text⟩⟩ := by
  rcases h with htnil | ⟨hg, hnm⟩
  · have hrb : renderBlock p = natDigits p.id ++ ['.', ' '] := by
      rw [renderBlock, htnil]
    have hnlb : ∀ c ∈ renderBlock p, isNL c = false := by
      rw [hrb]
      intro c hc
      rcases List.mem_append.mp hc with h | h
      · exact digit_not_nl (natDigits_digits _ c h)
      · simp at h
        rcases h with h | h <;> subst h <;> decide
    rw [splitLines_noNL hnlb]
    simp only [List.foldl_cons, List.foldl_nil]
    show parseStepT st (jsTrim (renderBlock p)) = _
    rw [hrb, jsTrim_digits_dot_space, parseStepT_match (matchNumLine_digits_dot p.id)]
    rw [htnil]
    rfl
  · obtain ⟨l0, ls, hsp⟩ := splitLines_exists_cons p.text
    have hjoin : p.text = l0 ++ tailJoin ls := by
      conv_lhs => rw [← joinLines_splitLines p.text]
      rw [hsp]
      rfl
    have hgl0 : GoodLine l0 := hg l0 (by rw [hsp]; simp)
    obtain ⟨htr0, hne0, hh0⟩ := hgl0
    have hl0mem : l0 ∈ splitLines p.text := by rw [hsp]; simp
    have hnl0 : ∀ c ∈ l0, isNL c = false := noNL_of_mem_splitLines hl0mem
    have hidline_nl : ∀ c ∈ natDigits p.id ++ '.' :: ' ' :: l0, isNL c = false := by
      intro c hc
      rcases List.mem_append.mp hc with h | h
      · exact digit_not_nl (natDigits_digits _ c h)
      · rcases List.mem_cons.mp h with h | h
        · subst h; decide
        · rcases List.mem_cons.mp h with h | h
          · subst h; decide
          · exact hnl0 c h
    have hmatch := matchNumLine_idline p.id hne0 htr0 hh0 hnl0
    have hjst := jsTrim_idline p.id hne0 htr0
    cases ls with
    | nil =>
      have hrb : renderBlock p = natDigits p.id ++ '.' :: ' ' :: l0 := by
        rw [renderBlock, hjoin]
        simp [tailJoin]
      rw [hrb, splitLines_noNL hidline_nl]
      simp only [List.foldl_cons, List.foldl_nil]
      show parseStepT st (jsTrim (natDigits p.id ++ '.' :: ' ' :: l0)) = _
      rw [hjst, parseStepT_match hmatch, htr0]
      rw [hjoin]
      simp [tailJoin]
    | cons m ms =>
      have hrb : renderBlock p =
          (natDigits p.id ++ '.' :: ' ' :: l0) ++ '\n' :: joinLines (m :: ms) := by
        rw [renderBlock, hjoin]
        rw [show tailJoin (m :: ms) = '\n' :: joinLines (m :: ms) from rfl]
        simp
      have hnlms : ∀ l ∈ m :: ms, ∀ c ∈ l, isNL c = false := by
        intro l hl
        exact noNL_of_mem_splitLines (x := p.text)
          (by rw [hsp]; exact List.mem_cons_of_mem _ hl)
      rw [hrb, splitLines_append_nl, splitLines_noNL hidline_nl,
        splitLines_joinLines (by simp) hnlms]
      rw [show ([natDigits p.id ++ '.' :: ' ' :: l0] ++ m :: ms : List Str) =
        (natDigits p.id ++ '.' :: ' ' :: l0) :: m :: ms from rfl]
      rw [List.foldl_cons]
      have hstep : parseStep st (natDigits p.id ++ '.' :: ' ' :: l0) =
          ⟨st.acc ++ flushCur st.cur, some ⟨p.id, l0⟩⟩ := by
        show parseStepT st (jsTrim (natDigits p.id ++ '.' :: ' ' :: l0)) = _
        rw [hjst, parseStepT_match hmatch, htr0]
      rw [hstep]
      have hconts : ∀ l ∈ m :: ms, GoodLine l ∧ matchNumLine l = none := by
        intro l hl
        refine ⟨hg l (by rw [hsp]; exact List.mem_cons_of_mem _ hl), ?_⟩
        exact hnm l (by rw [hsp]; exact hl)
      rw [contFold hconts, ← hjoin]

theorem renderFold {ps : List Prompt} (h : ∀ p ∈ ps, WFText p.text) :
    ∀ st : PState,
      (List.foldl parseStep st (splitLines (renderPrompts ps))).acc ++
        flushCur (List.foldl parseStep st (splitLines (renderPrompts ps))).cur =
      st.acc ++ flushCur st.cur ++ ps := by
  induction ps with
  | nil =>
    intro st
    rw [show renderPrompts [] = ([] : Str) from rfl,
      show splitLines ([] : Str) = [[]] from rfl]
    simp only [List.foldl_cons, List.foldl_nil, parseStep_nil]
    simp
  | cons p ps ih =>
    intro st
    cases ps with
    | nil =>
      rw [show renderPrompts [p] = renderBlock p from rfl]
      rw [blockFold (h p (by simp)) st]
      show (st.acc ++ flushCur st.cur) ++ [(⟨p.id, jsTrim p.text⟩ : Prompt)] =
        st.acc ++ flushCur st.cur ++ [p]
      rw [jsTrim_of_wfText (h p (by simp))]
    | cons q qs =>
      rw [show renderPrompts (p :: q :: qs) =
        renderBlock p ++ '\n' :: ('\n' :: renderPrompts (q :: qs)) from rfl]
      rw [splitLines_append_nl, List.foldl_append, blockFold (h p (by simp)) st]
      rw [splitLines_cons_nl (by decide), List.foldl_cons, parseStep_nil]
      rw [ih (fun r hr => h r (List.mem_cons_of_mem _ hr))
        ⟨st.acc ++ flushCur st.cur, some ⟨p.id, p.text⟩⟩]
      show (st.acc ++ flushCur st.cur) ++ [(⟨p.id, jsTrim p.text⟩ : Prompt)] ++ (q :: qs) =
        st.acc ++ flushCur st.cur ++ (p :: q :: qs)
      rw [jsTrim_of_wfText (h p (by simp))]
      simp

/-- C8 counterexample: parse `"1.\na\rb"` (a carriage return inside a
continuation line).  The parse yields `[{1, "a\rb"}]`; the rendered text
`"1. a\rb"` no longer matches `^(\d+)\.\s*(.*)$` because a JS `.` cannot
cross the carriage return, so re-parsing discards the line and yields
`[]`. -/
theorem c8_counterexample :
    parseCustomPrompts (renderPrompts (parseCustomPrompts ("1.\na\rb".data))) ≠
      parseCustomPrompts ("1.\na\rb".data) := by
  decide

/-- C8 amended: for every raw input text containing no carriage return,
U+2028 or U+2029 characters, rendering the parsed list as `"id. text"`
blocks joined by blank lines and parsing that rendered text again yields
the same list of (id, text) pairs as the first parse. -/
theorem c8_amended_idempotent (x : Str) (hx : ∀ c ∈ x, isHardTerm c = false) :
    parseCustomPrompts (renderPrompts (parseCustomPrompts x)) = parseCustomPrompts x := by
  have hwf : ∀ p ∈ parseCustomPrompts x, WFText p.text := parse_wf hx
  have hsorted := sortByIdx_pairwise (parseCustomPromptsRaw x)
  show sortByIdx (parseCustomPromptsRaw (renderPrompts (parseCustomPrompts x))) = _
  rw [parseCustomPromptsRaw_eq_lines]
  have hre : parseLinesRaw (splitLines (renderPrompts (parseCustomPrompts x))) =
      parseCustomPrompts x := by
    show (List.foldl parseStep ⟨[], none⟩
        (splitLines (renderPrompts (parseCustomPrompts x)))).acc ++
      flushCur (List.foldl parseStep ⟨[], none⟩
        (splitLines (renderPrompts (parseCustomPrompts x)))).cur = _
    rw [renderFold hwf ⟨[], none⟩]
    rfl
  rw [hre]
  exact sortByIdx_eq_self hsorted

/-- Witness for the amended C8 on a concrete multi-line input. -/
theorem c8_amended_idempotent_witness :
    (∀ c ∈ ("1. A\nmore A\n2. B".data : Str), isHardTerm c = false) ∧
    parseCustomPrompts (renderPrompts (parseCustomPrompts ("1. A\nmore A\n2. B".data))) =
      parseCustomPrompts ("1. A\nmore A\n2. B".data) :=
  ⟨by decide, c8_amended_idempotent ("1. A\nmore A\n2. B".data) (by decide)⟩
